import Mathlib

/-!
Verification of the subscription-relay repository: a shallow embedding of
the client merge engine (`session.ts`), the server fan-out dispatcher and
message handler (`server-core.ts`), the client reconnect state machine
(`session.ts`, `open`), and the reactive signal runtime (`lib/signals.ts`),
together with theorems settling the specification's claims.

JavaScript values are modelled by `JVal` (JSON trees; `undefined` is
modelled as `Option.none` at use sites).  In-place mutation in the source
is modelled by functional update; a thrown `TypeError` is modelled by a
`Bool` flag (`threw`) carried alongside the resulting value, since an
exception escapes `merge` while earlier in-place mutations stay visible.
-/

/-- A JSON-like JavaScript value (no floats or `undefined`; `undefined`
appears only as `Option.none` where a property may be absent). -/
inductive JVal where
  | null : JVal
  | bool (b : Bool) : JVal
  | int (n : Int) : JVal
  | str (s : String) : JVal
  | arr (xs : List JVal) : JVal
  | obj (fields : List (String × JVal)) : JVal
  deriving Repr, Inhabited

mutual

/-- Structural equality on `JVal` (JS `===` on primitives; object identity
is approximated structurally — the repository only compares primitive ids). -/
def JVal.beq : JVal → JVal → Bool
  | .null, .null => true
  | .bool a, .bool b => a == b
  | .int a, .int b => a == b
  | .str a, .str b => a == b
  | .arr xs, .arr ys => JVal.beqList xs ys
  | .obj fs, .obj gs => JVal.beqFields fs gs
  | _, _ => false

def JVal.beqList : List JVal → List JVal → Bool
  | [], [] => true
  | x :: xs, y :: ys => JVal.beq x y && JVal.beqList xs ys
  | _, _ => false

def JVal.beqFields : List (String × JVal) → List (String × JVal) → Bool
  | [], [] => true
  | (k, v) :: fs, (k2, v2) :: gs => k == k2 && JVal.beq v v2 && JVal.beqFields fs gs
  | _, _ => false

end

instance : BEq JVal := ⟨JVal.beq⟩

mutual

theorem JVal.beq_iff : ∀ (a b : JVal), JVal.beq a b = true ↔ a = b
  | .null, .null => by simp [JVal.beq]
  | .bool a, .bool b => by simp [JVal.beq]
  | .int a, .int b => by simp [JVal.beq]
  | .str a, .str b => by simp [JVal.beq]
  | .arr xs, .arr ys => by
    simp only [JVal.beq, JVal.arr.injEq]
    exact JVal.beqList_iff xs ys
  | .obj fs, .obj gs => by
    simp only [JVal.beq, JVal.obj.injEq]
    exact JVal.beqFields_iff fs gs
  | .null, .bool _ | .null, .int _ | .null, .str _ | .null, .arr _ | .null, .obj _
  | .bool _, .null | .bool _, .int _ | .bool _, .str _ | .bool _, .arr _ | .bool _, .obj _
  | .int _, .null | .int _, .bool _ | .int _, .str _ | .int _, .arr _ | .int _, .obj _
  | .str _, .null | .str _, .bool _ | .str _, .int _ | .str _, .arr _ | .str _, .obj _
  | .arr _, .null | .arr _, .bool _ | .arr _, .int _ | .arr _, .str _ | .arr _, .obj _
  | .obj _, .null | .obj _, .bool _ | .obj _, .int _ | .obj _, .str _ | .obj _, .arr _ => by
    simp [JVal.beq]

theorem JVal.beqList_iff : ∀ (xs ys : List JVal), JVal.beqList xs ys = true ↔ xs = ys
  | [], [] => by simp [JVal.beqList]
  | x :: xs, y :: ys => by
    simp only [JVal.beqList, Bool.and_eq_true, List.cons.injEq]
    exact and_congr (JVal.beq_iff x y) (JVal.beqList_iff xs ys)
  | [], _ :: _ => by simp [JVal.beqList]
  | _ :: _, [] => by simp [JVal.beqList]

theorem JVal.beqFields_iff :
    ∀ (fs gs : List (String × JVal)), JVal.beqFields fs gs = true ↔ fs = gs
  | [], [] => by simp [JVal.beqFields]
  | (k, v) :: fs, (k2, v2) :: gs => by
    simp [JVal.beqFields, JVal.beq_iff v v2, JVal.beqFields_iff fs gs, and_assoc]
  | [], _ :: _ => by simp [JVal.beqFields]
  | _ :: _, [] => by simp [JVal.beqFields]

end

instance : DecidableEq JVal := fun a b =>
  decidable_of_iff (JVal.beq a b = true) (JVal.beq_iff a b)

/-- JS truthiness of a value (`!x` in the source is `¬ jsTruthy x`). -/
def jsTruthy : JVal → Bool
  | .null => false
  | .bool b => b
  | .int n => n != 0
  | .str s => s != ""
  | .arr _ => true
  | .obj _ => true

/-- Truthiness of a possibly-`undefined` value. -/
def truthyOpt : Option JVal → Bool
  | none => false
  | some v => jsTruthy v

mutual

/-- JS `String(v)` conversion, used by template literals such as
`` `${doc}:${doc_id}` ``. -/
def jsToString : JVal → String
  | .null => "null"
  | .bool b => cond b "true" "false"
  | .int n => toString n
  | .str s => s
  | .arr xs => jsJoin xs
  | .obj _ => "[object Object]"

/-- `Array.prototype.toString`: comma-joined elements, `null` printing empty. -/
def jsJoin : List JVal → String
  | [] => ""
  | [.null] => ""
  | [x] => jsToString x
  | .null :: rest => "," ++ jsJoin rest
  | x :: rest => jsToString x ++ "," ++ jsJoin rest

end

/-- Digit-list parser for array-index strings (the behaviour of
`String.toNat?`, written with structural recursion). -/
def digitsToNat : List Char → Nat → Option Nat
  | [], acc => some acc
  | c :: rest, acc =>
      let n := c.toNat
      if 48 ≤ n ∧ n ≤ 57 then digitsToNat rest (acc * 10 + (n - 48))
      else none

def strToNat : String → Option Nat
  | s =>
      match s.data with
      | [] => none
      | cs => digitsToNat cs 0

/-- JS property read `v[k]` for a string key (`undefined` = `none`).
Arrays expose numeric indices (canonical form only) and `length`;
strings expose characters and `length`. -/
def getProp : JVal → String → Option JVal
  | .obj fs, k => (fs.find? (fun f => f.1 == k)).map (fun f => f.2)
  | .arr xs, k =>
      if k == "length" then some (.int xs.length)
      else match strToNat k with
        | some i => if toString i == k then xs.get? i else none
        | none => none
  | .str s, k =>
      if k == "length" then some (.int s.length)
      else match strToNat k with
        | some i =>
            if toString i == k then (s.data.get? i).map (fun c => .str (String.mk [c]))
            else none
        | none => none
  | _, _ => none

/-- JS property write `v[k] = x`, restricted to keys that already resolve
(the repository only writes back through paths it has just read). -/
def setProp : JVal → String → JVal → JVal
  | .obj fs, k, v =>
      .obj (if fs.any (fun f => f.1 == k)
            then fs.map (fun f => if f.1 == k then (k, v) else f)
            else fs ++ [(k, v)])
  | .arr xs, k, v =>
      (match strToNat k with
        | some i => if toString i == k then .arr (xs.set i v) else .arr xs
        | none => .arr xs)
  | other, _, _ => other

/-- `Object.keys(v)[0]`: the first own enumerable key, or `undefined`. -/
def firstKey : JVal → Option String
  | .obj fs => fs.head?.map (fun f => f.1)
  | .arr xs => if xs.isEmpty then none else some "0"
  | .str s => if s.isEmpty then none else some "0"
  | _ => none

/-- A JS property-key expression coerces `undefined` to the string
`"undefined"` (`current[rootKey]` with `rootKey` undefined). -/
def keyStr (k : Option String) : String := k.getD "undefined"

/-- The field list produced by spreading a value (`{...v}`). -/
def spreadFields : JVal → List (String × JVal)
  | .obj fs => fs
  | .arr xs => (List.range xs.length).zip xs |>.map (fun p => (toString p.1, p.2))
  | .str s => (List.range s.length).zip s.data |>.map
      (fun p => (toString p.1, .str (String.mk [p.2])))
  | _ => []

/-- Sequential JS property assignment (the semantics of object spread):
an existing key is overwritten in place, a new key is appended. -/
def assignField (fs : List (String × JVal)) (kv : String × JVal) : List (String × JVal) :=
  if fs.any (fun f => f.1 == kv.1)
  then fs.map (fun f => if f.1 == kv.1 then kv else f)
  else fs ++ [kv]

/-- `{...a, ...b}`. -/
def objAssign (a b : List (String × JVal)) : List (String × JVal) :=
  b.foldl assignField (a.foldl assignField [])

/-! ## Document merge engine (`session.ts`, `merge` / `splice`) -/

/-- An element's id as seen by a JS `Set` of ids: `undefined` is `none`.
`item.id` on `null` throws, which call sites model separately. -/
abbrev JsId := Option JVal

/-- SameValueZero comparison of two possibly-undefined ids
(JS `===` / `Set` membership; `undefined` equals only `undefined`). -/
def jsIdEq : JsId → JsId → Bool
  | none, none => true
  | some a, some b => JVal.beq a b
  | _, _ => false

theorem jsIdEq_iff (a b : JsId) : jsIdEq a b = true ↔ a = b := by
  cases a <;> cases b <;> simp [jsIdEq, JVal.beq_iff]

/-- `item.id`: throws a `TypeError` on `null`, otherwise reads the
property (autoboxing primitives, whose `id` is `undefined`). -/
def idGet : JVal → Except Unit JsId
  | .null => .error ()
  | v => .ok (getProp v "id")

/-- `arr.map(item => item.id)`: the full id list, or a throw if any
element is `null`. -/
def mapIds : List JVal → Except Unit (List JsId)
  | [] => .ok []
  | x :: rest =>
      match idGet x with
      | .error e => .error e
      | .ok i =>
          match mapIds rest with
          | .error e => .error e
          | .ok is => .ok (i :: is)

/-- `Set.prototype.has` over a list of ids. -/
def hasId (ids : List JsId) (i : JsId) : Bool := ids.any (fun j => jsIdEq j i)

theorem hasId_iff (ids : List JsId) (i : JsId) : hasId ids i = true ↔ i ∈ ids := by
  induction ids with
  | nil => simp [hasId]
  | cons j rest ih =>
      simp only [hasId, List.any_cons, Bool.or_eq_true, List.mem_cons] at *
      rw [jsIdEq_iff]
      constructor
      · rintro (h | h)
        · exact Or.inl h.symm
        · exact Or.inr (ih.mp h)
      · rintro (h | h)
        · exact Or.inl h.symm
        · exact Or.inr (ih.mpr h)

/-- The dedup push loop of the `append` op:
`for (const item of data) if (!existing.has(item.id)) arr.push(item)`.
`existing` is fixed before the loop and never updated.  A `null` item
throws when its `id` is read, aborting the loop with earlier pushes kept. -/
def pushLoop (existing : List JsId) (arr : List JVal) : List JVal → List JVal × Bool
  | [] => (arr, false)
  | item :: rest =>
      match idGet item with
      | .error _ => (arr, true)
      | .ok i =>
          if hasId existing i then pushLoop existing arr rest
          else pushLoop existing (arr ++ [item]) rest

/-- Dedup-append of payload items onto an existing array:
`const existing = new Set(arr.map(item => item.id))` followed by the push
loop.  The id scan throws if the existing array contains `null`. -/
def appendArray (xs items : List JVal) : List JVal × Bool :=
  match mapIds xs with
  | .error _ => (xs, true)
  | .ok existing => pushLoop existing xs items

/-- The `append` op's per-field loop over a doc-shaped payload:
`for (const [k, v] of Object.entries(data)) if (Array.isArray(v) &&
Array.isArray(c[k])) { dedup-append into c[k] }`, mutating `c` in place.
A throw aborts the loop, keeping mutations made so far. -/
def appendFieldsInto (c : JVal) : List (String × JVal) → JVal × Bool
  | [] => (c, false)
  | (k, v) :: rest =>
      match v, getProp c k with
      | .arr items, some (.arr xs) =>
          let r := appendArray xs items
          let c2 := setProp c k (.arr r.1)
          if r.2 then (c2, true) else appendFieldsInto c2 rest
      | _, _ => appendFieldsInto c rest

/-- The `append` branch of `merge` (`session.ts` lines 120-166).
Returns the tree value held by the document signal afterwards, plus
whether a `TypeError` escaped. -/
def appendMerge (current data : JVal) : JVal × Bool :=
  if jsTruthy current = false then (data, false)
  else
    let rk := keyStr (firstKey current)
    match data with
    | .arr items =>
        match getProp current rk with
        | some (.arr xs) =>
            let r := appendArray xs items
            (setProp current rk (.arr r.1), r.2)
        | _ => (current, false)
    | .null => (current, true)
    | .obj dataFields =>
        match getProp current rk with
        | some root =>
            if jsTruthy root ∧ (root matches .obj _ ∨ root matches .arr _) then
              let r := appendFieldsInto root dataFields
              (setProp current rk r.1, r.2)
            else
              appendFieldsInto current dataFields
        | none => appendFieldsInto current dataFields
    | _ => (current, false)

/-- `parent_ids?.[i]` after `parent_ids ?? []`: index into the id list,
`undefined` beyond its end or for a non-indexable value. -/
def parentAt (pids : Option JVal) (i : Nat) : JsId :=
  match pids with
  | some (.arr l) => l.get? i
  | some (.str s) => (s.data.get? i).map (fun c => .str (String.mk [c]))
  | _ => none

/-- `arr.findIndex(item => item.id === target)` /
`arr.find(item => item.id === target)` as an index scan: a `null`
element throws before it can match. -/
def scanForId (xs : List JVal) (target : JsId) : Except Unit (Option Nat) :=
  go xs 0
where
  go : List JVal → Nat → Except Unit (Option Nat)
    | [], _ => .ok none
    | x :: rest, n =>
        match idGet x with
        | .error _ => .error ()
        | .ok i => if jsIdEq i target then .ok (some n) else go rest (n + 1)

/-- `splice(arr, data, op)` (`session.ts` lines 91-99): remove by id, or
replace-by-id-else-push.  Throws propagate from the id scan or from
reading `data.id` on `null`. -/
def spliceOp (xs : List JVal) (data : JVal) (op : String) : Except Unit (List JVal) := do
  let dId ← idGet data
  let idx ← scanForId xs dId
  if op = "remove" then
    match idx with
    | some i => .ok (xs.eraseIdx i)
    | none => .ok xs
  else
    match idx with
    | some i => .ok (xs.set i data)
    | none => .ok (xs ++ [data])

/-- The collection-path walk plus final splice (`session.ts` lines
187-209), written as a recursion over the remaining segments, rebuilding
the updated node functionally.  Returns `ok none` when a lookup fails
(missing/falsy array, id not found, falsy found element): the code
`return`s before mutating anything.  `Except.error` models a
`TypeError` (array method called on a truthy non-array, or a `null`
array element whose `id` is read). -/
def walkSplice (node : JVal) (segs : List String) (pids : Option JVal) (i : Nat)
    (op : String) (data : JVal) : Except Unit (Option JVal) :=
  match segs with
  | [] => .ok none
  | [last] =>
      match getProp node last with
      | none => .ok none
      | some a =>
          if jsTruthy a = false then .ok none
          else match a with
            | .arr xs =>
                (match spliceOp xs data op with
                  | .error e => .error e
                  | .ok xs2 => .ok (some (setProp node last (.arr xs2))))
            | _ => .error ()
  | seg :: rest =>
      match getProp node seg with
      | none => .ok none
      | some a =>
          if jsTruthy a = false then .ok none
          else match a with
            | .arr xs =>
                (match scanForId xs (parentAt pids i) with
                  | .error e => .error e
                  | .ok none => .ok none
                  | .ok (some idx) =>
                      match xs.get? idx with
                      | none => .ok none
                      | some elem =>
                          if jsTruthy elem = false then .ok none
                          else
                            match walkSplice elem rest pids (i + 1) op data with
                            | .error e => .error e
                            | .ok none => .ok none
                            | .ok (some elem2) =>
                                .ok (some (setProp node seg (.arr (xs.set idx elem2)))))
            | _ => .error ()

/-- `str.split(".")` — character-wise splitting on dots (JS semantics:
`""` gives `[""]`, consecutive dots give empty segments). -/
def splitChar (sep : Char) : List Char → List (List Char)
  | [] => [[]]
  | c :: rest =>
      let r := splitChar sep rest
      if c = sep then [] :: r
      else match r with
        | [] => [[c]]
        | g :: gs => (c :: g) :: gs

def jsSplitDot (s : String) : List String := (splitChar '.' s.data).map String.mk

/-- The non-`set`, non-`append` branch of `merge` (`session.ts` lines
168-211): root-entity merge/removal when `collection` is falsy, else the
dotted-path walk and splice. -/
def upsertRemove (current : JVal) (op : String) (collection pids : Option JVal)
    (data : JVal) : JVal × Bool :=
  if jsTruthy current = false then (current, false)
  else
    let rk := firstKey current
    let root := getProp current (keyStr rk)
    if truthyOpt collection = false then
      if op = "remove" then (.obj [("_removed", .bool true)], false)
      else (.obj [(keyStr rk,
        .obj (objAssign (spreadFields (root.getD .null)) (spreadFields data)))], false)
    else
      match collection with
      | some (.str col) =>
          let segs := jsSplitDot col
          let fromRoot : Bool := segs.head? == rk
          let start : Option JVal := if fromRoot then some current else root
          match start with
          | none => (current, false)
          | some st =>
              match walkSplice st segs pids 0 op data with
              | .error _ => (current, true)
              | .ok none => (current, false)
              | .ok (some st2) =>
                  if fromRoot then (st2, false)
                  else (setProp current (keyStr rk) st2, false)
      | _ => (current, true)

/-- `merge` after the registry and cursor bookkeeping (`session.ts` lines
113-212): dispatch on the op, returning the tree now held by the
document signal and whether a `TypeError` escaped. -/
def mergeTree (current : JVal) (op : String) (collection pids : Option JVal)
    (data : JVal) : JVal × Bool :=
  if op = "set" then (data, false)
  else if op = "append" then appendMerge current data
  else upsertRemove current op collection pids data

/-! ## Client document registry (`session.ts`, `connect`) -/

/-- The reactive cells of one open document (`DocEntry` in the source);
signals are modelled by their current values (the client is
single-threaded and `merge` is synchronous). -/
structure DocEntry where
  sigVal : JVal
  cursorVal : JVal
  hasMoreVal : Bool
  deriving Repr, DecidableEq

/-- A `notify` push message as the client sees it after `JSON.parse`
(`none` = field absent). -/
structure NotifyMsg where
  doc : String
  doc_id : JVal
  op : String
  collection : Option JVal
  parent_ids : Option JVal
  data : Option JVal
  cursor : Option JVal
  hasMore : Option JVal
  deriving Repr, DecidableEq

/-- `` `${fn}:${docId}` `` — the document key string. -/
def docKey (doc : String) (docId : JVal) : String :=
  doc ++ ":" ++ jsToString docId

/-- The client's `docs` map (JS `Map`: at most one entry per key). -/
abbrev DocRegistry := List (String × DocEntry)

def regGet (docs : DocRegistry) (k : String) : Option DocEntry :=
  (docs.find? (fun e => e.1 == k)).map (fun e => e.2)

def regSet (docs : DocRegistry) (k : String) (e : DocEntry) : DocRegistry :=
  if docs.any (fun f => f.1 == k)
  then docs.map (fun f => if f.1 == k then (k, e) else f)
  else docs ++ [(k, e)]

def regDelete (docs : DocRegistry) (k : String) : DocRegistry :=
  docs.filter (fun f => !(f.1 == k))

/-- The full `merge(msg)` entry point (`session.ts` lines 101-212):
registry lookup, the `!entry || !data` guard, cursor/hasMore signal
updates, then the tree merge.  Returns the updated registry and whether
a `TypeError` escaped. -/
def mergeMsg (docs : DocRegistry) (m : NotifyMsg) : DocRegistry × Bool :=
  let key := docKey m.doc m.doc_id
  match regGet docs key with
  | none => (docs, false)
  | some e =>
      if truthyOpt m.data = false then (docs, false)
      else
        let e1 := match m.cursor with
          | some c => { e with cursorVal := c }
          | none => e
        let e2 := match m.hasMore with
          | some h => { e1 with hasMoreVal := jsTruthy h }
          | none => e1
        let r := mergeTree e2.sigVal m.op m.collection m.parent_ids (m.data.getD .null)
        (regSet docs key { e2 with sigVal := r.1 }, r.2)

/-- The `error` push handler (`session.ts` lines 74-81): sets the error
sentinel on the document signal if the key is still registered. -/
def errorEvent (docs : DocRegistry) (fn : String) (docId : JVal) (err : JVal) : DocRegistry :=
  let key := docKey fn docId
  match regGet docs key with
  | none => docs
  | some e => regSet docs key { e with sigVal := .obj [("_error", err)] }

/-- A `{type:"close", fn, args:[docId]}` frame queued for sending. -/
structure CloseFrame where
  fn : String
  docId : JVal
  deriving Repr, DecidableEq

/-- `closeDoc` (`session.ts` lines 228-232): the registry entry is deleted
first, then the close frame is sent. -/
def closeDoc (docs : DocRegistry) (fn : String) (docId : JVal) :
    DocRegistry × CloseFrame :=
  (regDelete docs (docKey fn docId), ⟨fn, docId⟩)

theorem regGet_delete (docs : DocRegistry) (k : String) :
    regGet (regDelete docs k) k = none := by
  induction docs with
  | nil => rfl
  | cons f rest ih =>
      by_cases h : f.1 = k
      · subst h
        simp only [regDelete, List.filter, beq_self_eq_true, Bool.not_true]
        exact ih
      · simp only [regDelete, List.filter]
        by_cases h2 : (!(f.1 == k)) = true
        · simp only [h2, regGet, List.find?]
          have : (f.1 == k) = false := by simpa using h2
          simp only [this]
          exact ih
        · simp [h] at h2

/-! ## Benign lookup failure in the collection-path walk -/

/-- The read-only failure test for the collection-path walk: `true` iff
the traversal of `session.ts` lines 193-208 takes one of its early
`return` paths (missing/falsy array at a segment, parent id not found,
falsy found element) before reaching the splice. -/
def walkFails (node : JVal) (segs : List String) (pids : Option JVal) (i : Nat) : Bool :=
  match segs with
  | [] => true
  | [last] =>
      match getProp node last with
      | none => true
      | some a => !(jsTruthy a)
  | seg :: rest =>
      match getProp node seg with
      | none => true
      | some a =>
          if jsTruthy a = false then true
          else match a with
            | .arr xs =>
                (match scanForId xs (parentAt pids i) with
                  | .error _ => false
                  | .ok none => true
                  | .ok (some idx) =>
                      match xs.get? idx with
                      | none => true
                      | some elem =>
                          if jsTruthy elem = false then true
                          else walkFails elem rest pids (i + 1))
            | _ => false

theorem walkFails_splice_none :
    ∀ (node : JVal) (segs : List String) (pids : Option JVal) (i : Nat)
      (op : String) (data : JVal), walkFails node segs pids i = true →
      walkSplice node segs pids i op data = .ok none
  | node, [], pids, i, op, data => fun _ => rfl
  | node, [last], pids, i, op, data => by
      intro h
      simp only [walkFails] at h
      simp only [walkSplice]
      cases hg : getProp node last with
      | none => rfl
      | some a =>
          rw [hg] at h
          dsimp only at h ⊢
          have ht : jsTruthy a = false := by
            cases hjt : jsTruthy a
            · rfl
            · rw [hjt] at h
              simp at h
          rw [if_pos ht]
  | node, seg :: s2 :: rest, pids, i, op, data => by
      intro h
      simp only [walkFails] at h
      simp only [walkSplice]
      cases hg : getProp node seg with
      | none => rfl
      | some a =>
          rw [hg] at h
          dsimp only at h ⊢
          by_cases ht : jsTruthy a = false
      
          · rw [if_pos ht]
          · rw [if_neg ht] at h ⊢
            cases a with
            | arr xs =>
                dsimp only at h ⊢
                cases hs : scanForId xs (parentAt pids i) with
                | error e =>
                    rw [hs] at h
                    simp at h
                | ok oidx =>
                    rw [hs] at h
                    cases oidx with
                    | none => rfl
                    | some idx =>
                        dsimp only at h ⊢
                        cases hgi : xs.get? idx with
                        | none => rfl
                        | some elem =>
                            rw [hgi] at h
                            dsimp only at h ⊢
                            by_cases hte : jsTruthy elem = false
                            · rw [if_pos hte]
                            · rw [if_neg hte] at h ⊢
                              rw [walkFails_splice_none elem (s2 :: rest) pids (i + 1) op data h]
            | null => simp [jsTruthy] at ht
            | bool b =>
                cases b
                · simp [jsTruthy] at ht
                · simp at h
            | int n => simp at h
            | str s => simp at h
            | obj fs => simp at h

/-- C5: For every `upsert` or `remove` merge with a `collectionPath`, if
any lookup of the walk fails (array missing/falsy at a segment, no
element carrying the parent id, falsy found element), the whole merge is
a silent no-op: no exception and the tree unchanged. -/
theorem merge_lookup_failure_noop (current : JVal) (op c : String)
    (pids : Option JVal) (data : JVal)
    (h1 : op ≠ "set") (h2 : op ≠ "append") (hc : c ≠ "")
    (_hseg : 2 ≤ (jsSplitDot c).length)
    (hfail : ∀ st, (if (jsSplitDot c).head? == firstKey current then some current
        else getProp current (keyStr (firstKey current))) = some st →
        walkFails st (jsSplitDot c) pids 0 = true) :
    mergeTree current op (some (.str c)) pids data = (current, false) := by
  unfold mergeTree
  rw [if_neg h1, if_neg h2]
  unfold upsertRemove
  by_cases htc : jsTruthy current = false
  · rw [if_pos htc]
  · rw [if_neg htc]
    have hcol : ¬(truthyOpt (some (.str c)) = false) := by
      simp [truthyOpt, jsTruthy, hc]
    rw [if_neg hcol]
    dsimp only
    by_cases hfr : ((jsSplitDot c).head? == firstKey current) = true
    · rw [if_pos hfr]
      have hw := walkFails_splice_none current (jsSplitDot c) pids 0 op data
        (hfail current (by rw [if_pos hfr]))
      dsimp only
      rw [hw]
    · rw [if_neg hfr]
      cases hgr : getProp current (keyStr (firstKey current)) with
      | none => rfl
      | some st =>
          have hw := walkFails_splice_none st (jsSplitDot c) pids 0 op data
            (hfail st (by rw [if_neg hfr, hgr]))
          dsimp only
          rw [hw]

/-- The entity-document tree of the specification's nested-path scenario:
`{thing: {id:1, packages: [{id:2, allocations: [{id:3, options: []}]}]}}`. -/
def exNested : JVal :=
  .obj [("thing", .obj [("id", .int 1), ("packages", .arr [
    .obj [("id", .int 2), ("allocations", .arr [
      .obj [("id", .int 3), ("options", .arr [])]])]])])]

/-- Witness for `merge_lookup_failure_noop`: an `upsert` along
`packages.allocations.options` with a stale parent id 999 leaves the
tree unchanged and raises nothing. -/
theorem merge_lookup_failure_noop_wit :
    ("upsert" ≠ "set" ∧ "upsert" ≠ "append" ∧ "packages.allocations.options" ≠ "" ∧
      2 ≤ (jsSplitDot "packages.allocations.options").length) ∧
    mergeTree exNested "upsert" (some (.str "packages.allocations.options"))
        (some (.arr [.int 2, .int 999]))
        (.obj [("id", .int 7), ("label", .str "L")]) = (exNested, false) := by
  refine ⟨⟨by decide, by decide, by decide, by decide⟩, ?_⟩
  refine merge_lookup_failure_noop exNested "upsert" "packages.allocations.options"
    (some (.arr [.int 2, .int 999])) (.obj [("id", .int 7), ("label", .str "L")])
    (by decide) (by decide) (by decide) (by decide) ?_
  intro st hst
  have hst2 : some (JVal.obj [("id", .int 1), ("packages", .arr [
      .obj [("id", .int 2), ("allocations", .arr [
        .obj [("id", .int 3), ("options", .arr [])]])]])]) = some st := hst
  cases hst2
  decide

/-- C10: For every op other than `set` and `append` arriving while the
document tree is still `null` (no snapshot applied yet), `merge` returns
without throwing and leaves the tree `null`. -/
theorem merge_null_tree_noop (op : String) (col pids : Option JVal) (data : JVal)
    (h1 : op ≠ "set") (h2 : op ≠ "append") :
    mergeTree JVal.null op col pids data = (JVal.null, false) := by
  unfold mergeTree
  rw [if_neg h1, if_neg h2]
  unfold upsertRemove
  rw [if_pos (show jsTruthy JVal.null = false from rfl)]

/-- Witness for `merge_null_tree_noop` at op `upsert`. -/
theorem merge_null_tree_noop_wit :
    ("upsert" ≠ "set" ∧ "upsert" ≠ "append") ∧
    mergeTree JVal.null "upsert" (some (.str "items")) none
        (.obj [("id", .int 1)]) = (JVal.null, false) :=
  ⟨⟨by decide, by decide⟩,
    merge_null_tree_noop "upsert" (some (.str "items")) none
      (.obj [("id", .int 1)]) (by decide) (by decide)⟩

/-- C9: after `closeDoc` deletes the registry entry, a later `notify`
for the same document key is a complete no-op (registry, hence every
document signal, unchanged; nothing thrown), and a later `error` push
for that key is likewise a no-op. -/
theorem close_doc_stale_events_noop (docs : DocRegistry) (fn : String) (docId : JVal)
    (m : NotifyMsg) (fn2 : String) (docId2 err : JVal)
    (hm : docKey m.doc m.doc_id = docKey fn docId)
    (he : docKey fn2 docId2 = docKey fn docId) :
    mergeMsg (closeDoc docs fn docId).1 m = ((closeDoc docs fn docId).1, false) ∧
      errorEvent (closeDoc docs fn docId).1 fn2 docId2 err =
        (closeDoc docs fn docId).1 := by
  constructor
  · unfold mergeMsg closeDoc
    rw [hm]
    dsimp only
    rw [regGet_delete]
  · unfold errorEvent closeDoc
    rw [he]
    dsimp only
    rw [regGet_delete]

/-- Witness for `close_doc_stale_events_noop`: one open document
`thing_doc:1`, closed, then a stale `upsert` notify and a stale error
for the same key. -/
theorem close_doc_stale_events_noop_wit :
    (docKey "thing_doc" (JVal.int 1) = docKey "thing_doc" (JVal.int 1)) ∧
    (mergeMsg (closeDoc [("thing_doc:1",
        ⟨.obj [("thing", .obj [("id", .int 1)])], .null, false⟩)] "thing_doc"
        (JVal.int 1)).1
        ⟨"thing_doc", .int 1, "upsert", none, none,
          some (.obj [("name", .str "B")]), none, none⟩ =
      ((closeDoc [("thing_doc:1",
        ⟨.obj [("thing", .obj [("id", .int 1)])], .null, false⟩)] "thing_doc"
        (JVal.int 1)).1, false)) := by
  refine ⟨rfl, ?_⟩
  exact (close_doc_stale_events_noop
    [("thing_doc:1", ⟨.obj [("thing", .obj [("id", .int 1)])], .null, false⟩)]
    "thing_doc" (JVal.int 1)
    ⟨"thing_doc", .int 1, "upsert", none, none,
      some (.obj [("name", .str "B")]), none, none⟩
    "thing_doc" (JVal.int 1) (JVal.str "gone")
    (by rfl) (by rfl)).1

/-! ## The dedup-by-id invariant for `append` merges -/

/-- The id of an array element as the dedup logic sees it, with `null`
given id `undefined` (reading it actually throws; arrays containing
`null` are covered because the throw leaves the array unchanged). -/
def elemIdSafe : JVal → JsId
  | .null => none
  | v => getProp v "id"

/-- Pairwise distinctness of an id list under SameValueZero. -/
def idsNodup : List JsId → Bool
  | [] => true
  | i :: rest => !(hasId rest i) && idsNodup rest

theorem idsNodup_iff (l : List JsId) : idsNodup l = true ↔ l.Nodup := by
  induction l with
  | nil => simp [idsNodup]
  | cons i rest ih =>
      simp only [idsNodup, Bool.and_eq_true, Bool.not_eq_true', List.nodup_cons]
      rw [← ih]
      constructor
      · rintro ⟨h1, h2⟩
        refine ⟨fun hm => ?_, h2⟩
        rw [← hasId_iff] at hm
        rw [hm] at h1
        cases h1
      · rintro ⟨h1, h2⟩
        refine ⟨?_, h2⟩
        cases hh : hasId rest i
        · rfl
        · exact absurd (hasId_iff rest i |>.mp hh) h1

mutual

/-- The claim's invariant: every array anywhere in the tree contains no
two elements with equal id. -/
def idsOk : JVal → Bool
  | .arr xs => idsNodup (xs.map elemIdSafe) && idsOkList xs
  | .obj fs => idsOkFields fs
  | _ => true

def idsOkList : List JVal → Bool
  | [] => true
  | x :: rest => idsOk x && idsOkList rest

def idsOkFields : List (String × JVal) → Bool
  | [] => true
  | f :: rest => idsOk f.2 && idsOkFields rest

end

/-- An id value is primitive (the data model keys array elements by
integer ids; object- or array-valued `id` fields are out of scope). -/
def primBool : JsId → Bool
  | some (.arr _) => false
  | some (.obj _) => false
  | _ => true

mutual

/-- Every object's `id` field anywhere in the tree is primitive or
absent. -/
def primIds : JVal → Bool
  | .arr xs => primIdsList xs
  | .obj fs => primBool (getProp (.obj fs) "id") && primIdsFields fs
  | _ => true

def primIdsList : List JVal → Bool
  | [] => true
  | x :: rest => primIds x && primIdsList rest

def primIdsFields : List (String × JVal) → Bool
  | [] => true
  | f :: rest => primIds f.2 && primIdsFields rest

end

theorem idsOkList_iff (l : List JVal) : idsOkList l = true ↔ ∀ x ∈ l, idsOk x = true := by
  induction l with
  | nil => simp [idsOkList]
  | cons x rest ih => simp [idsOkList, ih]

theorem idsOkFields_iff (fs : List (String × JVal)) :
    idsOkFields fs = true ↔ ∀ f ∈ fs, idsOk f.2 = true := by
  induction fs with
  | nil => simp [idsOkFields]
  | cons f rest ih => simp [idsOkFields, ih]

theorem primIdsList_iff (l : List JVal) :
    primIdsList l = true ↔ ∀ x ∈ l, primIds x = true := by
  induction l with
  | nil => simp [primIdsList]
  | cons x rest ih => simp [primIdsList, ih]

theorem primIdsFields_iff (fs : List (String × JVal)) :
    primIdsFields fs = true ↔ ∀ f ∈ fs, primIds f.2 = true := by
  induction fs with
  | nil => simp [primIdsFields]
  | cons f rest ih => simp [primIdsFields, ih]

theorem idGet_ok_eq : ∀ (x : JVal) (i : JsId), idGet x = .ok i → i = elemIdSafe x
  | .null, i => by intro h; simp [idGet] at h
  | .bool b, i => by intro h; simp [idGet] at h; simp [h, elemIdSafe]
  | .int n, i => by intro h; simp [idGet] at h; simp [h, elemIdSafe]
  | .str s, i => by intro h; simp [idGet] at h; simp [h, elemIdSafe]
  | .arr xs, i => by intro h; simp [idGet] at h; simp [h, elemIdSafe]
  | .obj fs, i => by intro h; simp [idGet] at h; simp [h, elemIdSafe]

theorem mapIds_ok : ∀ (xs : List JVal) (l : List JsId),
    mapIds xs = .ok l → l = xs.map elemIdSafe
  | [], l => by
      intro h
      simp [mapIds] at h
      simp [h.symm]
  | x :: rest, l => by
      intro h
      unfold mapIds at h
      cases hi : idGet x with
      | error e => rw [hi] at h; cases h
      | ok i =>
          rw [hi] at h
          cases hm : mapIds rest with
          | error e => rw [hm] at h; cases h
          | ok is =>
              rw [hm] at h
              cases h
              rw [idGet_ok_eq x i hi, mapIds_ok rest is hm]
              simp

theorem pushLoop_spec (existing : List JsId) :
    ∀ (items arr : List JVal), ∃ added,
      (pushLoop existing arr items).1 = arr ++ added ∧
      (∀ a ∈ added, a ∈ items ∧ elemIdSafe a ∉ existing) ∧
      List.Sublist (added.map elemIdSafe) (items.map elemIdSafe)
  | [], arr => ⟨[], by simp [pushLoop]⟩
  | item :: rest, arr => by
      cases hi : idGet item with
      | error e =>
          refine ⟨[], by simp [pushLoop, hi], by simp, by simp⟩
      | ok i =>
          have hieq : i = elemIdSafe item := idGet_ok_eq item i hi
          by_cases hh : hasId existing i = true
          · obtain ⟨added, h1, h2, h3⟩ := pushLoop_spec existing rest arr
            refine ⟨added, ?_, ?_, ?_⟩
            · simp [pushLoop, hi, hh, h1]
            · exact fun a ha => ⟨List.mem_cons_of_mem _ (h2 a ha).1, (h2 a ha).2⟩
            · exact h3.trans (List.sublist_cons_self _ _)
          · obtain ⟨added, h1, h2, h3⟩ := pushLoop_spec existing rest (arr ++ [item])
            refine ⟨item :: added, ?_, ?_, ?_⟩
            · simp only [pushLoop, hi, hh, if_false, Bool.false_eq_true, ite_false]
              rw [h1, List.append_assoc]
              rfl
            · intro a ha
              rcases List.mem_cons.mp ha with rfl | ha2
              · refine ⟨List.mem_cons_self _ _, ?_⟩
                rw [← hieq]
                intro hmem
                exact hh ((hasId_iff existing i).mpr hmem)
              · exact ⟨List.mem_cons_of_mem _ (h2 a ha2).1, (h2 a ha2).2⟩
            · simp only [List.map_cons]
              rw [← hieq]
              exact List.Sublist.cons₂ i h3

theorem appendArray_spec (xs items : List JVal)
    (hxs : idsNodup (xs.map elemIdSafe) = true)
    (hitems : idsNodup (items.map elemIdSafe) = true) :
    idsNodup ((appendArray xs items).1.map elemIdSafe) = true ∧
      ∀ a ∈ (appendArray xs items).1, a ∈ xs ∨ a ∈ items := by
  unfold appendArray
  cases hm : mapIds xs with
  | error e => exact ⟨hxs, fun a ha => Or.inl ha⟩
  | ok existing =>
      have hex : existing = xs.map elemIdSafe := mapIds_ok xs existing hm
      obtain ⟨added, h1, h2, h3⟩ := pushLoop_spec existing items xs
      rw [h1]
      constructor
      · rw [idsNodup_iff, List.map_append, List.nodup_append]
        refine ⟨(idsNodup_iff _).mp hxs, ?_, ?_⟩
        · exact ((idsNodup_iff _).mp hitems).sublist h3
        · intro a ha hb
          obtain ⟨b, hb1, hb2⟩ := List.mem_map.mp hb
          have hnot := (h2 b hb1).2
          rw [hex] at hnot
          rw [hb2] at hnot
          exact hnot ha
      · intro a ha
        rcases List.mem_append.mp ha with h | h
        · exact Or.inl h
        · exact Or.inr (h2 a h).1

theorem ls_map_set {α β : Type} (f : α → β) :
    ∀ (l : List α) (i : Nat) (v : α), (l.set i v).map f = (l.map f).set i (f v)
  | [], _, _ => by simp
  | x :: rest, 0, v => by simp [List.set]
  | x :: rest, n + 1, v => by simp [List.set, ls_map_set f rest n v]

theorem ls_set_self {α : Type} :
    ∀ (l : List α) (i : Nat) (a : α), l.get? i = some a → l.set i a = l
  | [], i, a => by intro h; cases h
  | x :: rest, 0, a => by
      intro h
      cases h
      rfl
  | x :: rest, n + 1, a => by
      intro h
      have h2 : rest.get? n = some a := h
      simp [List.set, ls_set_self rest n a h2]

theorem ls_mem_set {α : Type} :
    ∀ (l : List α) (i : Nat) (v a : α), a ∈ l.set i v → a ∈ l ∨ a = v
  | [], i, v, a => by intro h; cases h
  | x :: rest, 0, v, a => by
      intro h
      rcases List.mem_cons.mp h with rfl | h2
      · exact Or.inr rfl
      · exact Or.inl (List.mem_cons_of_mem _ h2)
  | x :: rest, n + 1, v, a => by
      intro h
      rcases List.mem_cons.mp h with rfl | h2
      · exact Or.inl (List.mem_cons_self _ _)
      · rcases ls_mem_set rest n v a h2 with h3 | h3
        · exact Or.inl (List.mem_cons_of_mem _ h3)
        · exact Or.inr h3

theorem getProp_idsOk : ∀ (c : JVal) (k : String) (v : JVal),
    idsOk c = true → getProp c k = some v → idsOk v = true
  | .null, k, v => by intro _ h; cases h
  | .bool b, k, v => by intro _ h; cases h
  | .int n, k, v => by intro _ h; cases h
  | .str s, k, v => by
      intro _ h
      simp only [getProp] at h
      split at h
      · cases h; rfl
      · split at h
        · split at h
          · rcases Option.map_eq_some'.mp h with ⟨c2, _, rfl⟩
            rfl
          · cases h
        · cases h
  | .arr xs, k, v => by
      intro hc h
      simp only [getProp] at h
      split at h
      · cases h; rfl
      · split at h
        · split at h
          · simp only [idsOk, Bool.and_eq_true] at hc
            exact (idsOkList_iff xs).mp hc.2 v (List.get?_mem h)
          · cases h
        · cases h
  | .obj fs, k, v => by
      intro hc h
      simp only [getProp] at h
      rcases Option.map_eq_some'.mp h with ⟨f, hf, rfl⟩
      simp only [idsOk] at hc
      exact (idsOkFields_iff fs).mp hc f (List.mem_of_find?_eq_some hf)

theorem getProp_primIds : ∀ (c : JVal) (k : String) (v : JVal),
    primIds c = true → getProp c k = some v → primIds v = true
  | .null, k, v => by intro _ h; cases h
  | .bool b, k, v => by intro _ h; cases h
  | .int n, k, v => by intro _ h; cases h
  | .str s, k, v => by
      intro _ h
      simp only [getProp] at h
      split at h
      · cases h; rfl
      · split at h
        · split at h
          · rcases Option.map_eq_some'.mp h with ⟨c2, _, rfl⟩
            rfl
          · cases h
        · cases h
  | .arr xs, k, v => by
      intro hc h
      simp only [getProp] at h
      split at h
      · cases h; rfl
      · split at h
        · split at h
          · simp only [primIds] at hc
            exact (primIdsList_iff xs).mp hc v (List.get?_mem h)
          · cases h
        · cases h
  | .obj fs, k, v => by
      intro hc h
      simp only [getProp] at h
      rcases Option.map_eq_some'.mp h with ⟨f, hf, rfl⟩
      simp only [primIds, Bool.and_eq_true] at hc
      exact (primIdsFields_iff fs).mp hc.2 f (List.mem_of_find?_eq_some hf)

theorem find_id_replace (k : String) (v : JVal) (hk : k ≠ "id") :
    ∀ (fs : List (String × JVal)),
      (fs.map (fun f => if f.1 == k then (k, v) else f)).find? (fun g => g.1 == "id")
        = fs.find? (fun g => g.1 == "id")
  | [] => rfl
  | f :: rest => by
      simp only [List.map_cons]
      by_cases hf : f.1 = "id"
      · have hfk : (f.1 == k) = false := by
          simp only [hf, beq_eq_false_iff_ne, ne_eq]
          exact fun h => hk h.symm
        rw [if_neg (by simp [hfk])]
        rw [List.find?_cons_of_pos _ (by simp [hf])]
        rw [List.find?_cons_of_pos _ (by simp [hf])]
      · by_cases hfk : f.1 = k
        · rw [if_pos (by simp [hfk])]
          rw [List.find?_cons_of_neg _ (by simp; exact fun h => hk h)]
          rw [List.find?_cons_of_neg _ (by simp [hf])]
          exact find_id_replace k v hk rest
        · rw [if_neg (by simp [hfk])]
          rw [List.find?_cons_of_neg _ (by simp [hf])]
          rw [List.find?_cons_of_neg _ (by simp [hf])]
          exact find_id_replace k v hk rest

theorem idsOkFields_replace (k : String) (v : JVal) (hv : idsOk v = true) :
    ∀ (fs : List (String × JVal)), idsOkFields fs = true →
      idsOkFields (fs.map (fun f => if f.1 == k then (k, v) else f)) = true
  | [] => fun _ => rfl
  | f :: rest => by
      intro h
      simp only [idsOkFields, Bool.and_eq_true] at h
      by_cases hfk : (f.1 == k) = true
      · simp only [List.map_cons, hfk, if_true, idsOkFields, Bool.and_eq_true]
        exact ⟨hv, idsOkFields_replace k v hv rest h.2⟩
      · simp only [List.map_cons, hfk, if_false, idsOkFields, Bool.and_eq_true]
        exact ⟨h.1, idsOkFields_replace k v hv rest h.2⟩

theorem primIdsFields_replace (k : String) (v : JVal) (hv : primIds v = true) :
    ∀ (fs : List (String × JVal)), primIdsFields fs = true →
      primIdsFields (fs.map (fun f => if f.1 == k then (k, v) else f)) = true
  | [] => fun _ => rfl
  | f :: rest => by
      intro h
      simp only [primIdsFields, Bool.and_eq_true] at h
      by_cases hfk : (f.1 == k) = true
      · simp only [List.map_cons, hfk, if_true, primIdsFields, Bool.and_eq_true]
        exact ⟨hv, primIdsFields_replace k v hv rest h.2⟩
      · simp only [List.map_cons, hfk, if_false, primIdsFields, Bool.and_eq_true]
        exact ⟨h.1, primIdsFields_replace k v hv rest h.2⟩

theorem find?_imp_any {α : Type} (p : α → Bool) :
    ∀ (l : List α) (a : α), l.find? p = some a → l.any p = true
  | [], a => by intro h; cases h
  | x :: rest, a => by
      intro h
      by_cases hx : p x = true
      · simp [List.any_cons, hx]
      · rw [List.find?_cons_of_neg _ (by simp [hx])] at h
        simp [List.any_cons, find?_imp_any p rest a h]

theorem setProp_pres (c : JVal) (k : String) (v0 v : JVal)
    (hc1 : idsOk c = true) (hc2 : primIds c = true)
    (hg : getProp c k = some v0)
    (hshape : (∃ fs, v0 = .obj fs) ∨ (∃ xs, v0 = .arr xs))
    (hv1 : idsOk v = true) (hv2 : primIds v = true)
    (helem : elemIdSafe v = elemIdSafe v0) :
    idsOk (setProp c k v) = true ∧ primIds (setProp c k v) = true ∧
      elemIdSafe (setProp c k v) = elemIdSafe c := by
  cases c with
  | null => cases hg
  | bool b => cases hg
  | int n => cases hg
  | str s => exact ⟨hc1, hc2, rfl⟩
  | arr xs =>
      simp only [getProp] at hg
      split at hg
      · exfalso
        cases hg
        rcases hshape with ⟨fs, h⟩ | ⟨ys, h⟩ <;> cases h
      · simp only [setProp]
        split at hg
        · rename_i i hi
          split at hg
          · rename_i hik
            rw [if_pos hik]
            refine ⟨?_, ?_, rfl⟩
            · simp only [idsOk, Bool.and_eq_true] at hc1 ⊢
              constructor
              · rw [ls_map_set, helem]
                have hmv : (xs.map elemIdSafe).get? i = some (elemIdSafe v0) := by
                  rw [List.get?_map, hg]
                  rfl
                rw [ls_set_self _ _ _ hmv]
                exact hc1.1
              · rw [idsOkList_iff]
                intro x hx
                rcases ls_mem_set xs i v x hx with h2 | rfl
                · exact (idsOkList_iff xs).mp hc1.2 x h2
                · exact hv1
            · simp only [primIds] at hc2 ⊢
              rw [primIdsList_iff]
              intro x hx
              rcases ls_mem_set xs i v x hx with h2 | rfl
              · exact (primIdsList_iff xs).mp hc2 x h2
              · exact hv2
          · cases hg
        · cases hg
  | obj fs =>
      have hk : k ≠ "id" := by
        intro hkid
        subst hkid
        simp only [primIds, Bool.and_eq_true] at hc2
        rw [hg] at hc2
        rcases hshape with ⟨gs, h⟩ | ⟨ys, h⟩ <;> rw [h] at hc2 <;> cases hc2.1
      have hany : fs.any (fun f => f.1 == k) = true := by
        simp only [getProp] at hg
        rcases Option.map_eq_some'.mp hg with ⟨f, hf, _⟩
        exact find?_imp_any _ fs f hf
      simp only [setProp, hany, if_true]
      refine ⟨?_, ?_, ?_⟩
      · simp only [idsOk] at hc1 ⊢
        exact idsOkFields_replace k v hv1 fs hc1
      · simp only [primIds, Bool.and_eq_true] at hc2 ⊢
        constructor
        · have := find_id_replace k v hk fs
          simp only [getProp]
          rw [this]
          exact hc2.1
        · exact primIdsFields_replace k v hv2 fs hc2.2
      · simp only [elemIdSafe, getProp]
        rw [find_id_replace k v hk fs]

theorem elemId_arr (l : List JVal) : elemIdSafe (.arr l) = none := rfl

theorem appendArray_ok (xs items : List JVal)
    (hxs : idsOk (.arr xs) = true) (hxsp : primIds (.arr xs) = true)
    (hit : idsOk (.arr items) = true) (hitp : primIds (.arr items) = true) :
    idsOk (.arr (appendArray xs items).1) = true ∧
      primIds (.arr (appendArray xs items).1) = true := by
  simp only [idsOk, primIds, Bool.and_eq_true] at hxs hit ⊢
  obtain ⟨hnd, hmem⟩ := appendArray_spec xs items hxs.1 hit.1
  refine ⟨⟨hnd, ?_⟩, ?_⟩
  · rw [idsOkList_iff]
    intro x hx
    rcases hmem x hx with h | h
    · exact (idsOkList_iff xs).mp hxs.2 x h
    · exact (idsOkList_iff items).mp hit.2 x h
  · simp only [primIds] at hxsp hitp
    rw [primIdsList_iff]
    intro x hx
    rcases hmem x hx with h | h
    · exact (primIdsList_iff xs).mp hxsp x h
    · exact (primIdsList_iff items).mp hitp x h

theorem appendFieldsInto_pres :
    ∀ (fs : List (String × JVal)) (c : JVal),
      idsOk c = true → primIds c = true →
      (∀ f ∈ fs, idsOk f.2 = true ∧ primIds f.2 = true) →
      idsOk (appendFieldsInto c fs).1 = true ∧
        primIds (appendFieldsInto c fs).1 = true ∧
        elemIdSafe (appendFieldsInto c fs).1 = elemIdSafe c
  | [], c => fun hc1 hc2 _ => ⟨hc1, hc2, rfl⟩
  | (k, v) :: rest, c => by
      intro hc1 hc2 hfs
      have htail : ∀ f ∈ rest, idsOk f.2 = true ∧ primIds f.2 = true :=
        fun f hf => hfs f (List.mem_cons_of_mem _ hf)
      unfold appendFieldsInto
      split
      · rename_i items xs hg
        have hhead := hfs (k, .arr items) (List.mem_cons_self _ _)
        have hxs1 : idsOk (.arr xs) = true := getProp_idsOk c k _ hc1 hg
        have hxs2 : primIds (.arr xs) = true := getProp_primIds c k _ hc2 hg
        obtain ⟨hr1, hr2⟩ := appendArray_ok xs items hxs1 hxs2 hhead.1 hhead.2
        obtain ⟨hs1, hs2, hs3⟩ := setProp_pres c k (.arr xs) (.arr (appendArray xs items).1)
          hc1 hc2 hg (Or.inr ⟨xs, rfl⟩) hr1 hr2 (by rw [elemId_arr, elemId_arr])
        by_cases hthr : (appendArray xs items).2 = true
        · rw [if_pos hthr]
          exact ⟨hs1, hs2, hs3⟩
        · rw [if_neg hthr]
          obtain ⟨ha1, ha2, ha3⟩ := appendFieldsInto_pres rest
            (setProp c k (.arr (appendArray xs items).1)) hs1 hs2 htail
          exact ⟨ha1, ha2, ha3.trans hs3⟩
      · exact appendFieldsInto_pres rest c hc1 hc2 htail

theorem appendMerge_pres (t d : JVal)
    (ht1 : idsOk t = true) (ht2 : primIds t = true)
    (hd1 : idsOk d = true) (hd2 : primIds d = true) :
    idsOk (appendMerge t d).1 = true ∧ primIds (appendMerge t d).1 = true := by
  unfold appendMerge
  by_cases hft : jsTruthy t = false
  · rw [if_pos hft]
    exact ⟨hd1, hd2⟩
  · rw [if_neg hft]
    dsimp only
    cases d with
    | null => exact ⟨ht1, ht2⟩
    | bool b => exact ⟨ht1, ht2⟩
    | int n => exact ⟨ht1, ht2⟩
    | str s => exact ⟨ht1, ht2⟩
    | arr items =>
        try dsimp only
        cases hg : getProp t (keyStr (firstKey t)) with
        | none => exact ⟨ht1, ht2⟩
        | some a =>
            try dsimp only
            cases a with
            | arr xs =>
                have hxs1 : idsOk (.arr xs) = true := getProp_idsOk t _ _ ht1 hg
                have hxs2 : primIds (.arr xs) = true := getProp_primIds t _ _ ht2 hg
                obtain ⟨hr1, hr2⟩ := appendArray_ok xs items hxs1 hxs2 hd1 hd2
                obtain ⟨hs1, hs2, _⟩ := setProp_pres t (keyStr (firstKey t)) (.arr xs)
                  (.arr (appendArray xs items).1) ht1 ht2 hg (Or.inr ⟨xs, rfl⟩)
                  hr1 hr2 (by rw [elemId_arr, elemId_arr])
                exact ⟨hs1, hs2⟩
            | null => exact ⟨ht1, ht2⟩
            | bool b => exact ⟨ht1, ht2⟩
            | int n => exact ⟨ht1, ht2⟩
            | str s => exact ⟨ht1, ht2⟩
            | obj fs => exact ⟨ht1, ht2⟩
    | obj dataFields =>
        have hflds : ∀ f ∈ dataFields, idsOk f.2 = true ∧ primIds f.2 = true := by
          intro f hf
          simp only [idsOk] at hd1
          simp only [primIds, Bool.and_eq_true] at hd2
          exact ⟨(idsOkFields_iff dataFields).mp hd1 f hf,
            (primIdsFields_iff dataFields).mp hd2.2 f hf⟩
        try dsimp only
        cases hg : getProp t (keyStr (firstKey t)) with
        | none =>
            obtain ⟨h1, h2, _⟩ := appendFieldsInto_pres dataFields t ht1 ht2 hflds
            exact ⟨h1, h2⟩
        | some root =>
            try dsimp only
            split
            · rename_i hcond
              have hroot1 : idsOk root = true := getProp_idsOk t _ _ ht1 hg
              have hroot2 : primIds root = true := getProp_primIds t _ _ ht2 hg
              obtain ⟨h1, h2, h3⟩ := appendFieldsInto_pres dataFields root hroot1 hroot2 hflds
              have hshape : (∃ fs, root = JVal.obj fs) ∨ (∃ xs, root = JVal.arr xs) := by
                rcases hcond.2 with hm | hm
                · cases root <;> simp_all
                · cases root <;> simp_all
              obtain ⟨hs1, hs2, _⟩ := setProp_pres t (keyStr (firstKey t)) root
                (appendFieldsInto root dataFields).1 ht1 ht2 hg hshape h1 h2 h3
              exact ⟨hs1, hs2⟩
            · obtain ⟨h1, h2, _⟩ := appendFieldsInto_pres dataFields t ht1 ht2 hflds
              exact ⟨h1, h2⟩

theorem mergeTree_append (t : JVal) (col pids : Option JVal) (d : JVal) :
    mergeTree t "append" col pids d = appendMerge t d := by
  unfold mergeTree
  rw [if_neg (by decide), if_pos rfl]

/-- C2 counterexample: the dedup set `existing` is computed before the
push loop and never updated, so one `append` whose payload itself
repeats a fresh id (here 9, twice) produces an array with two elements
of equal id — refuting the claim as stated, with no throw involved. -/
theorem append_dup_ids_cex :
    idsOk (JVal.obj [("posts", .arr [.obj [("id", .int 1)]])]) = true ∧
    mergeTree (JVal.obj [("posts", .arr [.obj [("id", .int 1)]])]) "append" none none
        (.arr [.obj [("id", .int 9)], .obj [("id", .int 9)]]) =
      (JVal.obj [("posts", .arr [.obj [("id", .int 1)], .obj [("id", .int 9)],
        .obj [("id", .int 9)]])], false) ∧
    idsOk (JVal.obj [("posts", .arr [.obj [("id", .int 1)], .obj [("id", .int 9)],
      .obj [("id", .int 9)]])]) = false :=
  ⟨by decide, by decide, by decide⟩

/-- C2 (amended): for every sequence of `append`-op merges applied to
the same document tree, if every array in the starting tree and in each
payload has pairwise-distinct element ids and id fields are primitive
values (the data model keys elements by integer ids), then every array
in the resulting tree contains no two elements with equal id. -/
theorem append_seq_dedup (col pids : Option JVal) :
    ∀ (ds : List JVal) (t : JVal), idsOk t = true → primIds t = true →
      (∀ d ∈ ds, idsOk d = true ∧ primIds d = true) →
      idsOk (ds.foldl (fun acc d => (mergeTree acc "append" col pids d).1) t) = true ∧
      primIds (ds.foldl (fun acc d => (mergeTree acc "append" col pids d).1) t) = true
  | [], t => fun h1 h2 _ => ⟨h1, h2⟩
  | d :: rest, t => by
      intro h1 h2 h3
      simp only [List.foldl_cons]
      rw [mergeTree_append]
      have hd := h3 d (List.mem_cons_self _ _)
      obtain ⟨hp1, hp2⟩ := appendMerge_pres t d h1 h2 hd.1 hd.2
      exact append_seq_dedup col pids rest (appendMerge t d).1 hp1 hp2
        (fun x hx => h3 x (List.mem_cons_of_mem _ hx))

/-- Witness for `append_seq_dedup`: two streamed pages appended onto a
collection document, the second repeating id 2. -/
theorem append_seq_dedup_wit :
    (idsOk (JVal.obj [("posts", .arr [.obj [("id", .int 1)]])]) = true ∧
     primIds (JVal.obj [("posts", .arr [.obj [("id", .int 1)]])]) = true ∧
     (∀ d ∈ [JVal.arr [.obj [("id", .int 2)]], JVal.arr [.obj [("id", .int 2)],
        .obj [("id", .int 3)]]], idsOk d = true ∧ primIds d = true)) ∧
    idsOk ([JVal.arr [.obj [("id", .int 2)]], JVal.arr [.obj [("id", .int 2)],
        .obj [("id", .int 3)]]].foldl
      (fun acc d => (mergeTree acc "append" none none d).1)
      (JVal.obj [("posts", .arr [.obj [("id", .int 1)]])])) = true :=
  ⟨⟨by decide, by decide, by
      intro d hd
      simp only [List.mem_cons, List.mem_singleton, List.not_mem_nil, or_false] at hd
      rcases hd with rfl | rfl
      · exact ⟨by decide, by decide⟩
      · exact ⟨by decide, by decide⟩⟩,
    (append_seq_dedup none none
      [JVal.arr [.obj [("id", .int 2)]], JVal.arr [.obj [("id", .int 2)],
        .obj [("id", .int 3)]]]
      (JVal.obj [("posts", .arr [.obj [("id", .int 1)]])])
      (by decide) (by decide) (by
        intro d hd
        simp only [List.mem_cons, List.mem_singleton, List.not_mem_nil, or_false] at hd
        rcases hd with rfl | rfl
        · exact ⟨by decide, by decide⟩
        · exact ⟨by decide, by decide⟩)).1⟩

/-! ## Server fan-out dispatcher (`server-core.ts`, `sql.listen` handler) -/

/-- One entry of a change event's `targets` list. -/
structure Target where
  doc : String
  doc_id : JVal
  collection : Option JVal
  parent_ids : Option JVal
  deriving Repr, DecidableEq

/-- A connected WebSocket as the dispatcher sees it: its identity and
its per-connection registry `ws.data.docs` of open document keys. -/
structure Conn where
  connId : Nat
  docs : List String
  deriving Repr, DecidableEq

/-- `` `${target.doc}:${target.doc_id}` ``. -/
def targetKey (t : Target) : String := docKey t.doc t.doc_id

/-- The fan-out loop (`server-core.ts` lines 25-40): for each target in
order, one send is queued for every client whose registry contains the
target's key, in client-list order; the message content is determined
by the target (plus the event payload). -/
def dispatchSends (clients : List Conn) (targets : List Target) : List (Nat × Target) :=
  targets.bind (fun t =>
    (clients.filter (fun c => c.docs.contains (targetKey t))).map (fun c => (c.connId, t)))

theorem filter_id_unique (c : Conn) :
    ∀ (clients : List Conn), c ∈ clients →
      (clients.map Conn.connId).Nodup → ∀ (p : Conn → Bool),
      ((clients.filter p).filter (fun x => x.connId == c.connId)).length
        = if p c = true then 1 else 0
  | [], hmem => absurd hmem (List.not_mem_nil c)
  | x :: rest, hmem => by
      intro hnd p
      simp only [List.map_cons, List.nodup_cons] at hnd
      rcases List.mem_cons.mp hmem with heq | hmem2
      · subst heq
        have hrest : (rest.filter p).filter (fun y => y.connId == c.connId) = [] := by
          rw [List.filter_eq_nil]
          intro y hy
          have hyr : y ∈ rest := List.mem_of_mem_filter hy
          have hmm : y.connId ∈ rest.map Conn.connId := List.mem_map_of_mem _ hyr
          simp only [Bool.not_eq_true, beq_eq_false_iff_ne, ne_eq]
          intro hcontra
          exact hnd.1 (hcontra ▸ hmm)
        rw [List.filter_cons]
        by_cases hp : p c = true
        · rw [if_pos hp, List.filter_cons]
          rw [if_pos (by simp)]
          rw [hrest]
          simp [hp]
        · rw [if_neg hp, hrest]
          simp [hp]
      · have hx : (x.connId == c.connId) = false := by
          have hmm : c.connId ∈ rest.map Conn.connId := List.mem_map_of_mem _ hmem2
          simp only [beq_eq_false_iff_ne, ne_eq]
          intro hcontra
          exact hnd.1 (hcontra ▸ hmm)
        have ih := filter_id_unique c rest hmem2 hnd.2 p
        rw [List.filter_cons]
        by_cases hp : p x = true
        · rw [if_pos hp, List.filter_cons, hx]
          simp only [Bool.false_eq_true, if_false]
          exact ih
        · rw [if_neg hp]
          exact ih

theorem dispatch_count_conn (c : Conn) (clients : List Conn)
    (hmem : c ∈ clients) (hnd : (clients.map Conn.connId).Nodup) :
    ∀ (targets : List Target),
      ((dispatchSends clients targets).filter (fun s => s.1 == c.connId)).length
        = (targets.filter (fun t => c.docs.contains (targetKey t))).length
  | [] => rfl
  | t0 :: rest => by
      simp only [dispatchSends, List.cons_bind, List.filter_append, List.length_append]
      have hseg :
          (((clients.filter (fun x => x.docs.contains (targetKey t0))).map
              (fun x => (x.connId, t0))).filter (fun s => s.1 == c.connId)).length
            = if c.docs.contains (targetKey t0) = true then 1 else 0 := by
        rw [List.filter_map]
        rw [List.length_map]
        exact filter_id_unique c clients hmem hnd _
      rw [hseg]
      have hrest := dispatch_count_conn c clients hmem hnd rest
      simp only [dispatchSends] at hrest
      rw [hrest, List.filter_cons]
      by_cases hp : c.docs.contains (targetKey t0) = true
      · rw [if_pos hp, if_pos hp]
        simp [Nat.add_comm]
      · rw [if_neg hp, if_neg hp]
        simp

theorem dispatch_count_pair (c : Conn) (t : Target) (clients : List Conn)
    (hmem : c ∈ clients) (hnd : (clients.map Conn.connId).Nodup) :
    ∀ (targets : List Target),
      ((dispatchSends clients targets).filter (fun s => s == (c.connId, t))).length
        = if c.docs.contains (targetKey t) = true
          then (targets.filter (fun t2 => t2 == t)).length else 0
  | [] => by
      by_cases hp : c.docs.contains (targetKey t) = true
      · rw [if_pos hp]; rfl
      · rw [if_neg hp]; rfl
  | t0 :: rest => by
      simp only [dispatchSends, List.cons_bind, List.filter_append, List.length_append]
      have hrest := dispatch_count_pair c t clients hmem hnd rest
      simp only [dispatchSends] at hrest
      rw [hrest]
      by_cases ht : t0 = t
      · subst ht
        have hseg :
            (((clients.filter (fun x => x.docs.contains (targetKey t0))).map
                (fun x => (x.connId, t0))).filter (fun s => s == (c.connId, t0))).length
              = if c.docs.contains (targetKey t0) = true then 1 else 0 := by
          rw [List.filter_map, List.length_map]
          rw [List.filter_congr (fun x _ => by
            show ((x.connId, t0) == (c.connId, t0)) = (x.connId == c.connId)
            by_cases h : x.connId = c.connId <;> simp [h])]
          exact filter_id_unique c clients hmem hnd _
        rw [hseg, List.filter_cons]
        by_cases hp : c.docs.contains (targetKey t0) = true
        · rw [if_pos hp, if_pos hp, if_pos hp, if_pos (by simp : (t0 == t0) = true)]
          simp [Nat.add_comm]
        · rw [if_neg hp, if_neg hp, if_neg hp]
      · have hseg :
            (((clients.filter (fun x => x.docs.contains (targetKey t0))).map
                (fun x => (x.connId, t0))).filter (fun s => s == (c.connId, t))) = [] := by
          rw [List.filter_eq_nil]
          intro s hs
          obtain ⟨x, _, rfl⟩ := List.mem_map.mp hs
          simp only [Bool.not_eq_true, beq_eq_false_iff_ne, ne_eq, Prod.mk.injEq, not_and]
          exact fun _ => ht
        rw [hseg, List.filter_cons]
        rw [if_neg (show ¬ ((t0 == t) = true) by simp [ht])]
        simp

/-- C1: for every change event, a connection in the client list (ids
distinct) receives exactly one queued send per (connection, target)
pair whose key its registry contains — in total, one send per matching
target — and zero sends when no target key is open. -/
theorem fanout_exactly_once (clients : List Conn) (targets : List Target) (c : Conn)
    (hmem : c ∈ clients) (hnd : (clients.map Conn.connId).Nodup) :
    ((dispatchSends clients targets).filter (fun s => s.1 == c.connId)).length
        = (targets.filter (fun t => c.docs.contains (targetKey t))).length ∧
    ((∀ t ∈ targets, c.docs.contains (targetKey t) = false) →
      ((dispatchSends clients targets).filter (fun s => s.1 == c.connId)).length = 0) ∧
    (∀ t : Target, ((dispatchSends clients targets).filter
        (fun s => s == (c.connId, t))).length
      = if c.docs.contains (targetKey t) = true
        then (targets.filter (fun t2 => t2 == t)).length else 0) := by
  refine ⟨dispatch_count_conn c clients hmem hnd targets, ?_,
    fun t => dispatch_count_pair c t clients hmem hnd targets⟩
  intro hnone
  rw [dispatch_count_conn c clients hmem hnd targets]
  rw [List.length_eq_zero, List.filter_eq_nil]
  intro t htm
  simpa using hnone t htm

/-- Witness for `fanout_exactly_once`: two connections, one with
`thing_doc:1` open; a single-target event reaches exactly that one. -/
theorem fanout_exactly_once_wit :
    ((⟨1, ["thing_doc:1"]⟩ : Conn) ∈ [(⟨1, ["thing_doc:1"]⟩ : Conn), ⟨2, []⟩] ∧
      (([(⟨1, ["thing_doc:1"]⟩ : Conn), ⟨2, []⟩]).map Conn.connId).Nodup) ∧
    ((dispatchSends [⟨1, ["thing_doc:1"]⟩, ⟨2, []⟩]
        [⟨"thing_doc", .int 1, none, none⟩]).filter (fun s => s.1 == 1)).length
      = ([(⟨"thing_doc", .int 1, none, none⟩ : Target)].filter
          (fun t => (["thing_doc:1"] : List String).contains (targetKey t))).length ∧
    ((dispatchSends [⟨1, ["thing_doc:1"]⟩, ⟨2, []⟩]
        [⟨"thing_doc", .int 1, none, none⟩]).filter
        (fun s => s == (1, ⟨"thing_doc", .int 1, none, none⟩))).length
      = if (["thing_doc:1"] : List String).contains
            (targetKey ⟨"thing_doc", .int 1, none, none⟩) = true
        then ([(⟨"thing_doc", .int 1, none, none⟩ : Target)].filter
          (fun t2 => t2 == ⟨"thing_doc", .int 1, none, none⟩)).length else 0 :=
  ⟨⟨by decide, by decide⟩,
    (fanout_exactly_once [⟨1, ["thing_doc:1"]⟩, ⟨2, []⟩]
      [⟨"thing_doc", .int 1, none, none⟩] ⟨1, ["thing_doc:1"]⟩
      (by decide) (by decide)).1,
    (fanout_exactly_once [⟨1, ["thing_doc:1"]⟩, ⟨2, []⟩]
      [⟨"thing_doc", .int 1, none, none⟩] ⟨1, ["thing_doc:1"]⟩
      (by decide) (by decide)).2.2 ⟨"thing_doc", .int 1, none, none⟩⟩

/-- The dispatch loop with Bun send semantics (`server-core.ts` line 42:
`for (const { ws, msg } of sends) ws.send(msg);`): `ws.send` returns a
status and does not throw, every queued send is attempted
unconditionally, and the handler touches neither `clients` nor any
registry — there is no try/catch, no logging and no removal. -/
def dispatchRun (clients : List Conn) (sendOk : Nat → Bool) (targets : List Target) :
    List (Nat × Target × Bool) × List Conn :=
  ((dispatchSends clients targets).map (fun s => (s.1, s.2, sendOk s.1)), clients)

/-- C6 counterexample: one subscriber whose send fails; after dispatch
the subscriber is still in the client registry (the code has no
dispatch-time removal, and nothing is logged) — refuting the claim's
"the failed subscriber is removed from the subscription registry". -/
theorem dispatch_failed_send_no_removal_cex :
    (dispatchRun [⟨1, ["thing_doc:1"]⟩] (fun _ => false)
        [⟨"thing_doc", .int 1, none, none⟩]).1
      = [(1, ⟨"thing_doc", .int 1, none, none⟩, false)] ∧
    (dispatchRun [⟨1, ["thing_doc:1"]⟩] (fun _ => false)
        [⟨"thing_doc", .int 1, none, none⟩]).2
      = [⟨1, ["thing_doc:1"]⟩] :=
  ⟨by rfl, by rfl⟩

/-- C6 (amended): a failed send cannot crash the dispatcher or affect
the other subscribers — the attempted sends are exactly the queued
fan-out sends whatever the pattern of send failures — but the failed
subscriber is not removed from the registry at dispatch time (removal
happens only in the `close` callback), and nothing is logged. -/
theorem dispatch_send_failure_isolated (clients : List Conn) (sendOk : Nat → Bool)
    (targets : List Target) :
    ((dispatchRun clients sendOk targets).1.map (fun a => (a.1, a.2.1)))
        = dispatchSends clients targets ∧
    (dispatchRun clients sendOk targets).2 = clients := by
  constructor
  · unfold dispatchRun
    rw [List.map_map]
    exact List.map_id _
  · rfl

/-! ## Client reconnect state machine (`session.ts`, `open`) -/

/-- The reconnect-relevant client state: current backoff delay, whether
a truthy profile has arrived (`profile.peek()`), whether the session was
abandoned to the login screen, and the delays passed to `setTimeout`
so far (instrumentation of the schedule calls). -/
structure ReconnState where
  delay : Nat
  profileSeen : Bool
  loggedOut : Bool
  scheduled : List Nat
  deriving Repr, DecidableEq

/-- `connect` starts with `delay = 1000` and a null profile. -/
def reconnInit : ReconnState := ⟨1000, false, false, []⟩

inductive ConnEvent where
  | opened
  | profileMsg (truthy : Bool)
  | closed (code : Nat)
  deriving Repr, DecidableEq

/-- `ws.onopen`: `delay = 1000`. -/
def onOpen (st : ReconnState) : ReconnState := { st with delay := 1000 }

/-- A `profile` push: `profile.set(msg.data)`. -/
def onProfile (st : ReconnState) (truthy : Bool) : ReconnState :=
  { st with profileSeen := truthy }

/-- `ws.onclose` (`session.ts` lines 50-63): close code 4001 (invalid
token), or code 1006 before a profile arrived, clears the token and
navigates to login without retrying; every other close schedules
`setTimeout(open, delay)` and then doubles the delay up to 30000 ms. -/
def onClose (st : ReconnState) (code : Nat) : ReconnState :=
  if code = 4001 ∨ (st.profileSeen = false ∧ code = 1006) then
    { st with loggedOut := true }
  else
    { st with scheduled := st.scheduled ++ [st.delay],
              delay := min (st.delay * 2) 30000 }

def runEvents : ReconnState → List ConnEvent → ReconnState
  | st, [] => st
  | st, e :: rest =>
      runEvents (match e with
        | .opened => onOpen st
        | .profileMsg b => onProfile st b
        | .closed c => onClose st c) rest

theorem runEvents_append (a b : List ConnEvent) :
    ∀ (st : ReconnState), runEvents st (a ++ b) = runEvents (runEvents st a) b := by
  induction a with
  | nil => intro st; rfl
  | cons e rest ih =>
      intro st
      simp only [List.cons_append, runEvents]
      exact ih _

theorem chain_weaken_head {a b : Nat} (l : List Nat) (hab : a ≤ b)
    (h : List.Chain' (· ≤ ·) (b :: l)) : List.Chain' (· ≤ ·) (a :: l) := by
  cases l with
  | nil => simp
  | cons x rest =>
      rw [List.chain'_cons] at h ⊢
      exact ⟨hab.trans h.1, h.2⟩

theorem closes_backoff : ∀ (codes : List Nat) (st : ReconnState),
    1000 ≤ st.delay → st.delay ≤ 30000 →
    ∃ added,
      (runEvents st (codes.map ConnEvent.closed)).scheduled = st.scheduled ++ added ∧
      List.Chain' (· ≤ ·) (st.delay :: added) ∧
      (∀ d ∈ added, 1000 ≤ d ∧ d ≤ 30000) ∧
      1000 ≤ (runEvents st (codes.map ConnEvent.closed)).delay ∧
      (runEvents st (codes.map ConnEvent.closed)).delay ≤ 30000
  | [], st => fun h1 h2 => ⟨[], by simp [runEvents], by simp, by simp, h1, h2⟩
  | code :: rest, st => by
      intro h1 h2
      simp only [List.map_cons, runEvents]
      unfold onClose
      by_cases hterm : code = 4001 ∨ (st.profileSeen = false ∧ code = 1006)
      · rw [if_pos hterm]
        obtain ⟨added, ha1, ha2, ha3, ha4, ha5⟩ :=
          closes_backoff rest { st with loggedOut := true } h1 h2
        exact ⟨added, ha1, ha2, ha3, ha4, ha5⟩
      · rw [if_neg hterm]
        have hd1 : 1000 ≤ min (st.delay * 2) 30000 := by omega
        have hd2 : min (st.delay * 2) 30000 ≤ 30000 := by omega
        obtain ⟨added, ha1, ha2, ha3, ha4, ha5⟩ := closes_backoff rest
          { st with scheduled := st.scheduled ++ [st.delay],
                    delay := min (st.delay * 2) 30000 } hd1 hd2
        refine ⟨st.delay :: added, ?_, ?_, ?_, ha4, ha5⟩
        · simp only at ha1
          rw [ha1]
          simp
        · rw [List.chain'_cons]
          refine ⟨le_refl _, ?_⟩
          dsimp only at ha2
          exact chain_weaken_head added (by omega) ha2
        · intro d hd
          rcases List.mem_cons.mp hd with rfl | hd2
          · exact ⟨h1, h2⟩
          · exact ha3 d hd2

/-- C7 counterexample: a generic abnormal-closure close (code 1006, not
the auth-rejection code 4001) before the profile has arrived abandons
the session instead of scheduling another retry — refuting "only an
explicit authentication rejection terminates the retry loop". -/
theorem reconnect_1006_terminates_cex :
    (onClose reconnInit 1006).loggedOut = true ∧
    (onClose reconnInit 1006).scheduled = [] ∧
    (1006 : Nat) ≠ 4001 :=
  ⟨by decide, by decide, by decide⟩

/-- C7 (amended): reconnect delays start at the 1000 ms base, each close
without an intervening successful open schedules a delay no smaller
than the previous one and never above the 30000 ms cap, and a
successful open resets the delay to the base; the retry loop is
abandoned permanently exactly on close code 4001, or on code 1006
before a profile has arrived — every other close schedules a retry. -/
theorem reconnect_backoff_spec :
    reconnInit.delay = 1000 ∧
    (∀ (codes : List Nat) (st : ReconnState), 1000 ≤ st.delay → st.delay ≤ 30000 →
      ∃ added,
        (runEvents st (codes.map ConnEvent.closed)).scheduled = st.scheduled ++ added ∧
        List.Chain' (· ≤ ·) (st.delay :: added) ∧
        (∀ d ∈ added, 1000 ≤ d ∧ d ≤ 30000)) ∧
    (∀ (st : ReconnState) (evs : List ConnEvent),
      (runEvents st (evs ++ [ConnEvent.opened])).delay = 1000) ∧
    (∀ (st : ReconnState) (code : Nat),
      ((onClose st code).loggedOut = true ↔
        (st.loggedOut = true ∨ code = 4001 ∨ (st.profileSeen = false ∧ code = 1006)))) ∧
    (∀ (st : ReconnState) (code : Nat),
      ¬(code = 4001 ∨ (st.profileSeen = false ∧ code = 1006)) →
        (onClose st code).scheduled = st.scheduled ++ [st.delay] ∧
        (onClose st code).delay = min (st.delay * 2) 30000 ∧
        (onClose st code).loggedOut = st.loggedOut) := by
  refine ⟨rfl, ?_, ?_, ?_, ?_⟩
  · intro codes st h1 h2
    obtain ⟨added, ha1, ha2, ha3, _, _⟩ := closes_backoff codes st h1 h2
    exact ⟨added, ha1, ha2, ha3⟩
  · intro st evs
    rw [runEvents_append]
    rfl
  · intro st code
    unfold onClose
    by_cases hterm : code = 4001 ∨ (st.profileSeen = false ∧ code = 1006)
    · rw [if_pos hterm]
      simp [hterm]
    · rw [if_neg hterm]
      simp only []
      constructor
      · intro h
        exact Or.inl h
      · intro h
        rcases h with h | h
        · exact h
        · exact absurd h hterm
  · intro st code hterm
    unfold onClose
    rw [if_neg hterm]
    exact ⟨rfl, rfl, rfl⟩

/-- Witness for `reconnect_backoff_spec`: three consecutive failed
reconnects starting from the initial state schedule 1000, 2000, 4000. -/
theorem reconnect_backoff_spec_wit :
    (1000 ≤ reconnInit.delay ∧ reconnInit.delay ≤ 30000 ∧
      ¬((1001 : Nat) = 4001 ∨ (reconnInit.profileSeen = false ∧ (1001 : Nat) = 1006))) ∧
    (∃ added,
      (runEvents reconnInit ([1001, 1001, 1001].map ConnEvent.closed)).scheduled
        = reconnInit.scheduled ++ added ∧
      List.Chain' (· ≤ ·) (reconnInit.delay :: added) ∧
      (∀ d ∈ added, 1000 ≤ d ∧ d ≤ 30000)) ∧
    ((onClose reconnInit 1001).scheduled = reconnInit.scheduled ++ [reconnInit.delay] ∧
      (onClose reconnInit 1001).delay = min (reconnInit.delay * 2) 30000 ∧
      (onClose reconnInit 1001).loggedOut = reconnInit.loggedOut) :=
  ⟨⟨by decide, by decide, by decide⟩,
    reconnect_backoff_spec.2.1 [1001, 1001, 1001] reconnInit (by decide) (by decide),
    reconnect_backoff_spec.2.2.2.2 reconnInit 1001 (by decide)⟩

/-! ## Server WebSocket message handler (`server-core.ts`, `message`) -/

/-- `s.startsWith(p)` (structurally recursive model of JS
`String.prototype.startsWith`). -/
def jsStartsWith (s p : String) : Bool := p.data.isPrefixOf s.data

/-- A parsed client frame (`none` = field absent in the JSON). -/
structure ClientMsg where
  type : Option String
  id : Option JVal
  fn : String
  args : Option (List JVal)
  cursor : Option JVal
  limit : Option JVal
  stream : Bool
  deriving Repr, DecidableEq

/-- An observable action of the message handler: a request/response
reply, a `notify` push, an `error` push, an invocation of the backing
store, or an escaped `TypeError`. -/
inductive SrvAct where
  | reply (id : Option JVal) (ok : Bool) (payload : JVal)
  | notify (doc : String) (docId : JsId) (op : String)
      (data : Option JVal) (cursor : Option JVal) (hasMore : Option JVal)
  | errPush (fn : String) (docId : JsId) (err : JVal)
  | invoke (fn : String) (args : List JVal)
  | crash
  deriving Repr, DecidableEq

def isInvoke : SrvAct → Bool
  | .invoke _ _ => true
  | _ => false

/-- `` `${fn}:${docId}` `` where `docId` may be `undefined`. -/
def jsIdStr : JsId → String
  | none => "undefined"
  | some v => jsToString v

/-- `typeof v === "object"`. -/
def isObjLike : JVal → Bool
  | .obj _ => true
  | .arr _ => true
  | .null => true
  | _ => false

/-- `k in v` for objects (`false` on arrays for non-index keys; the
caller models the `TypeError` on primitives separately). -/
def hasField : JVal → String → Bool
  | .obj fs, k => fs.any (fun f => f.1 == k)
  | _, _ => false

/-- The streaming-pagination loop (`server-core.ts` lines 198-224):
`while (cur && ws.data.docs.has(key))`, one backing call per page, an
`append` notify per page carrying `hasMore`, stopping on exhaustion or
on a malformed page; a thrown error or store failure escapes to the
enclosing catch.  Returns the actions performed and the escaped error,
if any. -/
def streamLoop (store : String → List JVal → Except String JVal)
    (docs1 : List String) (key : String) (baseArgs : List JVal) (limit : JVal)
    (fn : String) (docId : JsId) : Nat → JVal → List SrvAct × Option String
  | 0, _ => ([], none)
  | fuel + 1, cur =>
      if (jsTruthy cur && docs1.contains key) = true then
        let nextArgs := baseArgs ++ [cur, limit]
        match store fn nextArgs with
        | .error e => ([.invoke fn nextArgs], some e)
        | .ok nr =>
            let inv := SrvAct.invoke fn nextArgs
            if jsTruthy nr = false then ([inv], none)
            else match nr with
              | .obj _ =>
                  if hasField nr "hasMore" = false then ([inv], none)
                  else
                    let send := SrvAct.notify fn docId "append" (getProp nr "data")
                      (some ((getProp nr "cursor").getD .null))
                      (some ((getProp nr "hasMore").getD (.bool false)))
                    if truthyOpt (getProp nr "hasMore") = false then ([inv, send], none)
                    else
                      let r := streamLoop store docs1 key baseArgs limit fn docId fuel
                        ((getProp nr "cursor").getD .null)
                      (inv :: send :: r.1, r.2)
              | .arr _ => ([inv], none)
              | _ => ([inv], some "TypeError")
      else ([], none)

/-- The authenticated-socket message handler (`server-core.ts` lines
120-291) after JSON parsing: the underscore and `preAuth` guards, then
the `open`/`close`/`fetch`/default-call branches.  `store` is the
backing-store oracle; the result pairs the performed actions with the
updated per-connection registry. -/
def handleMessage (preAuth : List String)
    (store : String → List JVal → Except String JVal) (fuel : Nat) (uid : Int)
    (docs : List String) (m : ClientMsg) : List SrvAct × List String :=
  if jsStartsWith m.fn "_" then
    ([.reply m.id false (.str "not allowed")], docs)
  else if preAuth.contains m.fn then
    ([.reply m.id false (.str "use /auth endpoint")], docs)
  else if m.type = some "open" then
    let docId : JsId := (m.args.getD []).get? 0
    let key := m.fn ++ ":" ++ jsIdStr docId
    let docs1 := if docs.contains key then docs else docs ++ [key]
    let baseArgs : List JVal :=
      if truthyOpt docId then [.int uid, docId.getD .null] else [.int uid]
    let hasCursor := m.cursor.isSome || m.limit.isSome
    let callArgs :=
      if hasCursor then baseArgs ++ [m.cursor.getD .null, m.limit.getD .null]
      else baseArgs
    match store m.fn callArgs with
    | .error e => ([.invoke m.fn callArgs, .errPush m.fn docId (.str e)], docs1)
    | .ok result =>
        let inv := SrvAct.invoke m.fn callArgs
        if (hasCursor && jsTruthy result && isObjLike result
            && hasField result "hasMore") = true then
          let setSend := SrvAct.notify m.fn docId "set" (getProp result "data")
            (some ((getProp result "cursor").getD .null))
            (some ((getProp result "hasMore").getD (.bool false)))
          if (m.stream && truthyOpt (getProp result "hasMore")
              && truthyOpt (getProp result "cursor")) = true then
            let r := streamLoop store docs1 key baseArgs (m.limit.getD .null) m.fn docId
              fuel ((getProp result "cursor").getD .null)
            match r.2 with
            | some e => (inv :: setSend :: (r.1 ++ [.errPush m.fn docId (.str e)]), docs1)
            | none => (inv :: setSend :: r.1, docs1)
          else ([inv, setSend], docs1)
        else
          ([inv, .notify m.fn docId "set" (some result) none none], docs1)
  else if m.type = some "close" then
    let docId : JsId := (m.args.getD []).get? 0
    let key := m.fn ++ ":" ++ jsIdStr docId
    ([], docs.filter (fun k => !(k == key)))
  else if m.type = some "fetch" then
    let docId : JsId := (m.args.getD []).get? 0
    let baseArgs : List JVal :=
      if truthyOpt docId then [.int uid, docId.getD .null] else [.int uid]
    let callArgs := baseArgs ++ [m.cursor.getD .null, m.limit.getD .null]
    match store m.fn callArgs with
    | .error e => ([.invoke m.fn callArgs, .reply m.id false (.str e)], docs)
    | .ok result => ([.invoke m.fn callArgs, .reply m.id true result], docs)
  else
    match m.args with
    | none => ([.crash], docs)
    | some as =>
        let args : List JVal := .int uid :: as
        match store m.fn args with
        | .error e => ([.invoke m.fn args, .reply m.id false (.str e)], docs)
        | .ok result => ([.invoke m.fn args, .reply m.id true result], docs)

/-- C8: a message naming an underscore-prefixed function or a `preAuth`
function gets exactly one `{ok:false, error}` reply, the backing store
is never invoked, and the subscription registry is untouched. -/
theorem guard_blocks_private_and_preauth (preAuth : List String)
    (store : String → List JVal → Except String JVal) (fuel : Nat) (uid : Int)
    (docs : List String) (m : ClientMsg)
    (h : jsStartsWith m.fn "_" = true ∨ preAuth.contains m.fn = true) :
    (handleMessage preAuth store fuel uid docs m).1
        = [.reply m.id false
            (.str (if jsStartsWith m.fn "_" then "not allowed" else "use /auth endpoint"))] ∧
    (∀ a ∈ (handleMessage preAuth store fuel uid docs m).1, isInvoke a = false) ∧
    (handleMessage preAuth store fuel uid docs m).2 = docs := by
  unfold handleMessage
  by_cases hu : jsStartsWith m.fn "_" = true
  · rw [if_pos hu]
    refine ⟨by rw [if_pos hu], ?_, rfl⟩
    intro a ha
    rcases List.mem_singleton.mp ha with rfl
    rfl
  · have hp : preAuth.contains m.fn = true := by
      rcases h with h | h
      · exact absurd h hu
      · exact h
    rw [if_neg hu, if_pos hp]
    refine ⟨by rw [if_neg (by simpa using hu)], ?_, rfl⟩
    intro a ha
    rcases List.mem_singleton.mp ha with rfl
    rfl

/-- Witness for `guard_blocks_private_and_preauth`: a call to the
preAuth function `login` over the socket is refused without any store
invocation. -/
theorem guard_blocks_private_and_preauth_wit :
    ((jsStartsWith "login" "_" = true ∨
        (["login", "register"] : List String).contains "login" = true)) ∧
    (handleMessage ["login", "register"] (fun _ _ => .error "unused") 5 7 []
        ⟨none, some (.str "1"), "login", some [], none, none, false⟩).1
      = [.reply (some (.str "1")) false (.str "use /auth endpoint")] ∧
    (handleMessage ["login", "register"] (fun _ _ => .error "unused") 5 7 []
        ⟨none, some (.str "1"), "login", some [], none, none, false⟩).2 = [] := by
  refine ⟨Or.inr (by decide), ?_, ?_⟩
  · have hg := guard_blocks_private_and_preauth ["login", "register"]
      (fun _ _ => .error "unused") 5 7 []
      ⟨none, some (.str "1"), "login", some [], none, none, false⟩ (Or.inr (by decide))
    rw [hg.1]
    decide
  · exact (guard_blocks_private_and_preauth ["login", "register"]
      (fun _ _ => .error "unused") 5 7 []
      ⟨none, some (.str "1"), "login", some [], none, none, false⟩ (Or.inr (by decide))).2.2

/-! ## Reactive signal runtime (`lib/signals.ts`) -/

/-- A program over the signal API: `get`, `set`, sequencing, a
conditional that reads a signal (dependency-tracked like any `get`) and
branches on whether its value equals a constant, and `batch`. -/
inductive Prog where
  | skip
  | getS (i : Nat)
  | setS (i : Nat) (v : Int)
  | seq (p q : Prog)
  | iteq (i : Nat) (v : Int) (p q : Prog)
  | batchP (p : Prog)
  deriving Repr, DecidableEq

/-- The global runtime state of `signals.ts`: signal values, per-signal
listener sets (insertion-ordered, as JS `Set`), each effect's `deps`
set from its last run, `batchDepth`, `pendingEffects`, `effectDepth`,
`flushing`, and an instrumentation counter of completed body runs per
effect. -/
structure SigState where
  values : List Int
  listeners : List (List Nat)
  deps : List (List Nat)
  batchDepth : Nat
  pending : List Nat
  effectDepth : Nat
  flushing : Bool
  runs : List Nat
  deriving Repr, DecidableEq

/-- JS `Set.add`: append if absent. -/
def addOnce (l : List Nat) (x : Nat) : List Nat := if l.contains x then l else l ++ [x]

def updAt (l : List (List Nat)) (i : Nat) (f : List Nat → List Nat) : List (List Nat) :=
  l.set i (f (l.getD i []))

/-- The unsubscribe pass at the end of `execute` (`signals.ts` lines
151-153): every old dep not read in this run drops the effect. -/
def unsubAll (listeners : List (List Nat)) (old nd : List Nat) (e : Nat) :
    List (List Nat) :=
  old.foldl (fun ls d => if nd.contains d then ls else ls.set d ((ls.getD d []).erase e))
    listeners

def incAt (l : List Nat) (e : Nat) : List Nat := l.set e (l.getD e 0 + 1)

/-- One entry point of the runtime: running a program under an optional
active effect (`currentListener`) with its accumulated `currentDeps`;
`Signal.set`; `notify` and its live-set listener iteration; `execute`;
the drain loop of `batch`; and `batch` itself. -/
inductive Call where
  | prog (self : Option Nat) (nd : List Nat) (p : Prog)
  | setSig (i : Nat) (v : Int)
  | notify (i : Nat)
  | notifyLoop (i : Nat) (visited : List Nat)
  | runEff (e : Nat)
  | runList (es : List Nat)
  | drain
  | batchRun (self : Option Nat) (nd : List Nat) (p : Prog)
  deriving Repr, DecidableEq

inductive SigErr where
  | fuelOut
  | depthExceeded
  deriving Repr, DecidableEq

/-- The fueled interpreter of `signals.ts`.  `MAX_EFFECT_DEPTH = 100`
guards effect cycles (`notify`); the fuel only bounds the model's
recursion and is irrelevant on terminating runs.  Returns the state and
the updated `currentDeps` (meaningful for `.prog`/`.batchRun`). -/
def interp (env : List Prog) : Nat → Call → SigState → Except SigErr (SigState × List Nat)
  | 0, _, _ => .error .fuelOut
  | fuel + 1, c, st =>
      match c with
      | .prog self nd p =>
          match p with
          | .skip => .ok (st, nd)
          | .getS i =>
              match self with
              | some e =>
                  .ok ({ st with listeners := updAt st.listeners i (fun l => addOnce l e) },
                       addOnce nd i)
              | none => .ok (st, nd)
          | .setS i v =>
              match interp env fuel (.setSig i v) st with
              | .error err => .error err
              | .ok r => .ok (r.1, nd)
          | .seq p q =>
              match interp env fuel (.prog self nd p) st with
              | .error err => .error err
              | .ok r => interp env fuel (.prog self r.2 q) r.1
          | .iteq i v p q =>
              let cur := st.values.getD i 0
              let st1 := match self with
                | some e => { st with listeners := updAt st.listeners i (fun l => addOnce l e) }
                | none => st
              let nd1 := match self with
                | some _ => addOnce nd i
                | none => nd
              interp env fuel (.prog self nd1 (if cur = v then p else q)) st1
          | .batchP p => interp env fuel (.batchRun self nd p) st
      | .setSig i v =>
          if st.values.getD i 0 = v then .ok (st, [])
          else
            interp env fuel (.notify i) { st with values := st.values.set i v }
      | .notify i =>
          if st.batchDepth > 0 then
            .ok ({ st with pending := (st.listeners.getD i []).foldl addOnce st.pending }, [])
          else
            let st1 := { st with effectDepth := st.effectDepth + 1 }
            if st1.effectDepth > 100 then .error .depthExceeded
            else
              match interp env fuel (.notifyLoop i []) st1 with
              | .error err => .error err
              | .ok r => .ok ({ r.1 with effectDepth := r.1.effectDepth - 1 }, [])
      | .notifyLoop i visited =>
          match (st.listeners.getD i []).find? (fun l => !(visited.contains l)) with
          | none => .ok (st, [])
          | some l =>
              match interp env fuel (.runEff l) st with
              | .error err => .error err
              | .ok r => interp env fuel (.notifyLoop i (visited ++ [l])) r.1
      | .runEff e =>
          match interp env fuel (.prog (some e) [] (env.getD e .skip)) st with
          | .error err => .error err
          | .ok r =>
              let st1 := r.1
              let nd := r.2
              let old := st1.deps.getD e []
              let st2 := { st1 with listeners := unsubAll st1.listeners old nd e }
              .ok ({ st2 with deps := st2.deps.set e nd, runs := incAt st2.runs e }, [])
      | .runList es =>
          match es with
          | [] => .ok (st, [])
          | e :: rest =>
              match interp env fuel (.runEff e) st with
              | .error err => .error err
              | .ok r => interp env fuel (.runList rest) r.1
      | .drain =>
          if st.pending = [] then .ok (st, [])
          else
            match interp env fuel (.runList st.pending) { st with pending := [] } with
            | .error err => .error err
            | .ok r => interp env fuel .drain r.1
      | .batchRun self nd p =>
          match interp env fuel (.prog self nd p) { st with batchDepth := st.batchDepth + 1 } with
          | .error err => .error err
          | .ok r =>
              let st2 := { r.1 with batchDepth := r.1.batchDepth - 1 }
              if st2.batchDepth = 0 ∧ st2.flushing = false then
                match interp env fuel .drain { st2 with flushing := true } with
                | .error err => .error err
                | .ok r2 => .ok ({ r2.1 with flushing := false }, r.2)
              else .ok (st2, r.2)

theorem drain_empties :
    ∀ (env : List Prog) (fuel : Nat) (st : SigState) (r : SigState × List Nat),
      interp env fuel .drain st = .ok r → r.1.pending = []
  | env, 0, st, r => by intro h; cases h
  | env, fuel + 1, st, r => by
      intro h
      simp only [interp] at h
      split at h
      · cases h
        rename_i hp
        exact hp
      · split at h
        · cases h
        · exact drain_empties env fuel _ r h

/-- The effect of the batch-coalescing scenario: one effect (id 0)
reading signals 0 and 1. -/
def c3env : List Prog := [.seq (.getS 0) (.getS 1)]

/-- Runtime state before the effect's first run. -/
def c3init (a0 b0 : Int) : SigState := ⟨[a0, b0], [[], []], [[]], 0, [], 0, false, [0]⟩

/-- Runtime state after the effect's first run: subscribed to both
signals, one completed run. -/
def c3run1 (a0 b0 : Int) : SigState := ⟨[a0, b0], [[0], [0]], [[0, 1]], 0, [], 0, false, [1]⟩

/-- The batch body: write both signals. -/
def c3fn (a1 b1 : Int) : Prog := .seq (.setS 0 a1) (.setS 1 b1)

/-- C3: an effect subscribed to two signals that are both written inside
one `batch(fn)` does not re-run while `fn` executes (it is enqueued once
in the pending set, deduplicated), re-runs exactly once after the
outermost `batch` returns — also when each write sits in its own nested
`batch` — and the drain loop always ends with an empty pending set. -/
theorem batch_coalesces_effect (a0 b0 a1 b1 : Int) (ha : a0 ≠ a1) (hb : b0 ≠ b1) :
    interp c3env 50 (.runEff 0) (c3init a0 b0) = .ok (c3run1 a0 b0, []) ∧
    interp c3env 60 (.prog none [] (c3fn a1 b1)) { c3run1 a0 b0 with batchDepth := 1 }
      = .ok (⟨[a1, b1], [[0], [0]], [[0, 1]], 1, [0], 0, false, [1]⟩, []) ∧
    interp c3env 60 (.batchRun none [] (c3fn a1 b1)) (c3run1 a0 b0)
      = .ok (⟨[a1, b1], [[0], [0]], [[0, 1]], 0, [], 0, false, [2]⟩, []) ∧
    interp c3env 60 (.batchRun none [] (.seq (.batchP (.setS 0 a1)) (.batchP (.setS 1 b1))))
        (c3run1 a0 b0)
      = .ok (⟨[a1, b1], [[0], [0]], [[0, 1]], 0, [], 0, false, [2]⟩, []) ∧
    (∀ (env : List Prog) (fuel : Nat) (st : SigState) (r : SigState × List Nat),
      interp env fuel .drain st = .ok r → r.1.pending = []) := by
  refine ⟨rfl, ?_, ?_, ?_, drain_empties⟩
  · simp [interp, c3env, c3fn, c3run1, addOnce, updAt, unsubAll, incAt, ha, hb]
  · simp [interp, c3env, c3fn, c3run1, addOnce, updAt, unsubAll, incAt, ha, hb]
  · simp [interp, c3env, c3fn, c3run1, addOnce, updAt, unsubAll, incAt, ha, hb]

/-- Witness for `batch_coalesces_effect` at values 5, 6 written to 7, 8. -/
theorem batch_coalesces_effect_wit :
    ((5 : Int) ≠ 7 ∧ (6 : Int) ≠ 8) ∧
    interp c3env 60 (.batchRun none [] (c3fn 7 8)) (c3run1 5 6)
      = .ok (⟨[7, 8], [[0], [0]], [[0, 1]], 0, [], 0, false, [2]⟩, []) :=
  ⟨⟨by decide, by decide⟩,
    (batch_coalesces_effect 5 6 7 8 (by decide) (by decide)).2.2.1⟩

/-- The dynamic-dependency scenario: one effect (id 0) that reads the
condition signal 2 and then reads signal 0 when it equals 0, signal 1
otherwise. -/
def c4env : List Prog := [.iteq 2 0 (.getS 0) (.getS 1)]

/-- Runtime state before the effect's first run (condition 0). -/
def c4init (va vb : Int) : SigState := ⟨[va, vb, 0], [[], [], []], [[]], 0, [], 0, false, [0]⟩

/-- After the first run: subscribed to the condition and to signal 0. -/
def c4run1 (va vb : Int) : SigState :=
  ⟨[va, vb, 0], [[0], [], [0]], [[2, 0]], 0, [], 0, false, [1]⟩

/-- After flipping the condition to 1 and the resulting second run:
unsubscribed from signal 0, subscribed to signal 1. -/
def c4run2 (va vb : Int) : SigState :=
  ⟨[va, vb, 1], [[], [0], [0]], [[2, 1]], 0, [], 0, false, [2]⟩

/-- C4: after a completed run, an effect is subscribed to exactly the
signals read during that run.  The first run reads signals 2 and 0;
after flipping the condition the second run reads 2 and 1, the effect
is unsubscribed from signal 0 and subscribed to signal 1; a subsequent
write to signal 0 no longer triggers it (run count stays 2), while a
write to signal 1 does (run count becomes 3). -/
theorem effect_dynamic_deps (va vb a1 b1 : Int) (ha : va ≠ a1) (hb : vb ≠ b1) :
    interp c4env 50 (.runEff 0) (c4init va vb) = .ok (c4run1 va vb, []) ∧
    interp c4env 50 (.setSig 2 1) (c4run1 va vb) = .ok (c4run2 va vb, []) ∧
    (c4run2 va vb).listeners = [[], [0], [0]] ∧
    interp c4env 50 (.setSig 0 a1) (c4run2 va vb)
      = .ok ({ c4run2 va vb with values := [a1, vb, 1] }, []) ∧
    interp c4env 50 (.setSig 1 b1) (c4run2 va vb)
      = .ok ({ c4run2 va vb with values := [va, b1, 1], runs := [3] }, []) := by
  refine ⟨rfl, rfl, rfl, ?_, ?_⟩
  · simp [interp, c4env, c4run2, addOnce, updAt, unsubAll, incAt, ha]
  · simp [interp, c4env, c4run2, addOnce, updAt, unsubAll, incAt, hb]

/-- Witness for `effect_dynamic_deps` at values 5, 6 written to 9, 9. -/
theorem effect_dynamic_deps_wit :
    ((5 : Int) ≠ 9 ∧ (6 : Int) ≠ 9) ∧
    interp c4env 50 (.setSig 0 9) (c4run2 5 6)
      = .ok ({ c4run2 5 6 with values := [9, 6, 1] }, []) ∧
    interp c4env 50 (.setSig 1 9) (c4run2 5 6)
      = .ok ({ c4run2 5 6 with values := [5, 9, 1], runs := [3] }, []) :=
  ⟨⟨by decide, by decide⟩,
    (effect_dynamic_deps 5 6 9 9 (by decide) (by decide)).2.2.2.1,
    (effect_dynamic_deps 5 6 9 9 (by decide) (by decide)).2.2.2.2⟩
